import Mathlib

/-!
# Verification of the microbe-metrics ingestion/reconciliation pipeline

Shallow embedding of the core pipeline of the `microbe-metrics` repository:

* `src/worker/jgi-extractor.ts` — the paginated extractor
  (`extractGenomesForDomain`, `processOrganismResult`, `extractLatestData`)
  and the reconciler (`mergeAndDeduplicate`);
* `src/worker/analytics-processor.ts` — the analytics aggregator
  (`computeDailyTrends`, `computeRecentActivity`, `calculateGrowthRate`,
  `computeOverview`) and the trigger pipeline (`handleTriggerExtraction`).

JavaScript `Map`s keyed by project id are modelled as lists of projects in
insertion order (`Map.set` replaces in place, otherwise appends; `Map.get`
finds the first — and, on well-formed maps, only — entry with the key).
Numbers are `Nat`/`ℚ`, ISO timestamps are `String`s, `undefined`/`null`
are `Option`, and JS exceptions of fallible calls are `Option`/explicit
result values.  `Date` arithmetic and `Math.random()` are injected as
explicit parameters, since they are ambient inputs of the original code.
-/

set_option autoImplicit false

namespace MicrobeMetrics

/-- Taxonomic metadata of a genome project (`JGIGenomeProject.metadata` in
`jgi-extractor.ts`).  The TS field `class` is a Lean keyword and is modelled
by the field `cls`.  `JSON.stringify` equality of two metadata objects built
by `processOrganismResult` coincides with structural equality, which is how
the reconciler's metadata comparison is modelled. -/
structure OrganismMetadata where
  domain : String
  phylum : Option String := none
  cls : Option String := none
  order : Option String := none
  family : Option String := none
  genus : Option String := none
  species : Option String := none
  strain : Option String := none
  deriving DecidableEq, Repr

/-- One observed organism record (`JGIGenomeProject` in `jgi-extractor.ts`).
The nested `urls` object is flattened into `portalUrl`/`downloadUrl`. -/
structure JGIGenomeProject where
  id : String
  name : String
  organism : String
  sequenceType : String
  status : String
  submissionDate : String
  releaseDate : Option String := none
  sequenceLength : Option Nat := none
  geneCount : Option Nat := none
  metadata : OrganismMetadata
  portalUrl : String := ""
  downloadUrl : Option String := none
  extractedAt : String := ""
  deriving DecidableEq, Repr

/-! ## The JS `Map` keyed by `project.id` -/

/-- `Map.get(id)`: first entry with the given id. -/
def mapGet : List JGIGenomeProject → String → Option JGIGenomeProject
  | [], _ => none
  | q :: m, i => if q.id = i then some q else mapGet m i

/-- `Map.set(p.id, p)`: replace the first entry with id `p.id` in place,
otherwise append at the end (JS `Map` preserves insertion order). -/
def mapSet : List JGIGenomeProject → JGIGenomeProject → List JGIGenomeProject
  | [], p => [p]
  | q :: m, p => if q.id = p.id then p :: m else q :: mapSet m p

/-- The id sequence of a map/dataset. -/
def ids (m : List JGIGenomeProject) : List String := m.map (·.id)

/-- All ids of the dataset are pairwise distinct. -/
def DistinctIds (m : List JGIGenomeProject) : Prop :=
  m.Pairwise (fun a b => a.id ≠ b.id)

instance (m : List JGIGenomeProject) : Decidable (DistinctIds m) := by
  unfold DistinctIds
  infer_instance

/-! ## The reconciler (`mergeAndDeduplicate`, jgi-extractor.ts:96-149) -/

/-- The tracked fields compared by the reconciler's change detection
(jgi-extractor.ts:120-124): `sequenceLength`, `geneCount`, `status` and the
full `metadata` object (compared there via `JSON.stringify`). -/
def trackedFields (p : JGIGenomeProject) :
    Option Nat × Option Nat × String × OrganismMetadata :=
  (p.sequenceLength, p.geneCount, p.status, p.metadata)

/-- `hasChanges` of jgi-extractor.ts:120-124: some tracked field differs. -/
def hasChanges (existing incoming : JGIGenomeProject) : Bool :=
  decide (trackedFields existing ≠ trackedFields incoming)

/-- Merge state: the map plus the running `newCount` and `updatedCount`. -/
abbrev MergeState := List JGIGenomeProject × Nat × Nat

/-- One iteration of the merge loop of `mergeAndDeduplicate`
(jgi-extractor.ts:111-137): unknown ids are inserted (`newCount++`); known
ids are replaced by the incoming record with the stored `submissionDate`
when a tracked field changed (`updatedCount++`), otherwise left untouched. -/
def mergeStep (st : MergeState) (p : JGIGenomeProject) : MergeState :=
  match mapGet st.1 p.id with
  | none => (mapSet st.1 p, st.2.1 + 1, st.2.2)
  | some existing =>
    if hasChanges existing p then
      (mapSet st.1 { p with submissionDate := existing.submissionDate },
       st.2.1, st.2.2 + 1)
    else st

/-- `masterDataset.forEach((project) => projectMap.set(project.id, project))`
(jgi-extractor.ts:104-105). -/
def buildMap (master : List JGIGenomeProject) : List JGIGenomeProject :=
  master.foldl mapSet []

/-- Statistics returned by the reconciler. -/
structure MergeStats where
  newCount : Nat
  updatedCount : Nat
  totalCount : Nat
  deriving DecidableEq, Repr

/-- Result of the reconciler: merged dataset (`Array.from(projectMap.values())`)
plus statistics. -/
structure MergeResult where
  merged : List JGIGenomeProject
  stats : MergeStats
  deriving DecidableEq, Repr

/-- `mergeAndDeduplicate` (jgi-extractor.ts:96-149). -/
def mergeAndDeduplicate (masterDataset newProjects : List JGIGenomeProject) :
    MergeResult :=
  let st := newProjects.foldl mergeStep (buildMap masterDataset, 0, 0)
  ⟨st.1, ⟨st.2.1, st.2.2, st.1.length⟩⟩

/-! ## Basic lemmas about the map model -/

theorem mapGet_some_id {m : List JGIGenomeProject} {i : String}
    {e : JGIGenomeProject} (h : mapGet m i = some e) : e.id = i := by
  induction m with
  | nil => simp [mapGet] at h
  | cons q m ih =>
    by_cases hq : q.id = i
    · simp [mapGet, hq] at h; subst h; exact hq
    · simp [mapGet, hq] at h; exact ih h

theorem mapGet_mapSet_self (m : List JGIGenomeProject) (p : JGIGenomeProject) :
    mapGet (mapSet m p) p.id = some p := by
  induction m with
  | nil => simp [mapGet, mapSet]
  | cons q m ih =>
    by_cases hq : q.id = p.id
    · simp [mapSet, hq, mapGet]
    · simp [mapSet, hq, mapGet, ih]

theorem mapGet_mapSet_ne {i : String} (m : List JGIGenomeProject)
    (p : JGIGenomeProject) (h : i ≠ p.id) :
    mapGet (mapSet m p) i = mapGet m i := by
  have hpi : p.id ≠ i := fun hc => h hc.symm
  induction m with
  | nil => simp [mapGet, mapSet, hpi]
  | cons q m ih =>
    by_cases hq : q.id = p.id
    · have hqi : q.id ≠ i := fun hc => hpi (hq.symm.trans hc)
      simp [mapSet, hq, mapGet, hpi, hqi]
    · by_cases hqi : q.id = i
      · simp [mapSet, hq, mapGet, hqi, h]
      · simp [mapSet, hq, mapGet, hqi, ih]

theorem mapGet_eq_none_iff {m : List JGIGenomeProject} {i : String} :
    mapGet m i = none ↔ i ∉ ids m := by
  induction m with
  | nil => simp [mapGet, ids]
  | cons q m ih =>
    by_cases hq : q.id = i
    · subst hq
      simp [mapGet, ids]
    · simp [mapGet, hq, ids] at ih ⊢
      exact ⟨fun h => ⟨fun hc => hq hc.symm, ih.mp h⟩, fun h => ih.mpr h.2⟩

theorem mapGet_isSome_iff {m : List JGIGenomeProject} {i : String} :
    (∃ e, mapGet m i = some e) ↔ i ∈ ids m := by
  rcases h : mapGet m i with _ | e
  · simp [mapGet_eq_none_iff.mp h]
  · have : i ∈ ids m := by
      by_contra hc
      rw [← mapGet_eq_none_iff] at hc
      rw [h] at hc; cases hc
    simp [this]

theorem ids_mapSet_present :
    ∀ {m : List JGIGenomeProject} {p : JGIGenomeProject},
      p.id ∈ ids m → ids (mapSet m p) = ids m
  | [], p, h => by simp [ids] at h
  | q :: m, p, h => by
    by_cases hq : q.id = p.id
    · simp [mapSet, hq, ids]
    · have hm : p.id ∈ ids m := by
        have h' : p.id = q.id ∨ p.id ∈ ids m := by simpa [ids] using h
        rcases h' with h1 | h2
        · exact absurd h1.symm hq
        · exact h2
      have hrec := ids_mapSet_present (m := m) (p := p) hm
      simp only [mapSet, if_neg hq, ids, List.map_cons]
      simpa [ids] using hrec

theorem ids_mapSet_new :
    ∀ {m : List JGIGenomeProject} {p : JGIGenomeProject},
      p.id ∉ ids m → ids (mapSet m p) = ids m ++ [p.id]
  | [], p, _ => by simp [mapSet, ids]
  | q :: m, p, h => by
    have h1 : ¬(p.id = q.id ∨ p.id ∈ ids m) := by simpa [ids] using h
    push_neg at h1
    have hq : q.id ≠ p.id := fun hc => h1.1 hc.symm
    have hrec := ids_mapSet_new (m := m) (p := p) h1.2
    simp only [mapSet, if_neg hq, ids, List.map_cons, List.cons_append]
    simpa [ids] using hrec

theorem distinctIds_iff_nodup {m : List JGIGenomeProject} :
    DistinctIds m ↔ (ids m).Nodup := by
  unfold DistinctIds ids List.Nodup
  rw [List.pairwise_map]

theorem distinctIds_mapSet {m : List JGIGenomeProject} (p : JGIGenomeProject)
    (h : DistinctIds m) : DistinctIds (mapSet m p) := by
  rw [distinctIds_iff_nodup] at h ⊢
  by_cases hp : p.id ∈ ids m
  · rwa [ids_mapSet_present hp]
  · rw [ids_mapSet_new hp]
    exact List.Nodup.append h (List.nodup_singleton p.id)
      (fun a ha hb => by
        have : a = p.id := by simpa using hb
        exact hp (this ▸ ha))

/-! ## Per-id view of the merge

The merge loop only ever touches the map entry with the incoming record's
id, so the final entry for an id `i` is a fold over the records of the batch
whose id is `i`.  `applyRecord` is the effect of one such record on the
stored entry. -/

/-- Effect of one incoming record on the existing entry with the same id:
replaced (with preserved `submissionDate`) when a tracked field changed,
untouched otherwise. -/
def applyRecord (e p : JGIGenomeProject) : JGIGenomeProject :=
  if hasChanges e p then { p with submissionDate := e.submissionDate } else e

/-- Per-id step, starting from an absent entry (`none`): the first record is
inserted as is, later records go through `applyRecord`. -/
def perIdStep (o : Option JGIGenomeProject) (p : JGIGenomeProject) :
    Option JGIGenomeProject :=
  match o with
  | none => some p
  | some e => some (applyRecord e p)

/-- Per-id evolution of the entry of one id across a batch. -/
def perIdFold (o : Option JGIGenomeProject) (bs : List JGIGenomeProject) :
    Option JGIGenomeProject :=
  bs.foldl perIdStep o

theorem trackedFields_withSub (p : JGIGenomeProject) (s : String) :
    trackedFields { p with submissionDate := s } = trackedFields p := rfl

theorem trackedFields_applyRecord (e p : JGIGenomeProject) :
    trackedFields (applyRecord e p) = trackedFields p := by
  unfold applyRecord hasChanges
  by_cases h : trackedFields e = trackedFields p
  · simp [h]
  · simp [h, trackedFields_withSub]

theorem submissionDate_applyRecord (e p : JGIGenomeProject) :
    (applyRecord e p).submissionDate = e.submissionDate := by
  unfold applyRecord hasChanges
  by_cases h : trackedFields e = trackedFields p
  · simp [h]
  · simp [h]

theorem id_applyRecord (e p : JGIGenomeProject) (h : e.id = p.id) :
    (applyRecord e p).id = p.id := by
  unfold applyRecord hasChanges
  by_cases hc : trackedFields e = trackedFields p
  · simp [hc, h]
  · simp [hc]

theorem applyRecord_of_changes {e p : JGIGenomeProject}
    (h : hasChanges e p = true) :
    applyRecord e p = { p with submissionDate := e.submissionDate } := by
  simp [applyRecord, h]

theorem applyRecord_of_no_changes {e p : JGIGenomeProject}
    (h : hasChanges e p = false) : applyRecord e p = e := by
  simp [applyRecord, h]

theorem hasChanges_iff {e p : JGIGenomeProject} :
    hasChanges e p = true ↔ trackedFields e ≠ trackedFields p := by
  simp [hasChanges]

theorem submissionDate_foldl_applyRecord (bs : List JGIGenomeProject) :
    ∀ e : JGIGenomeProject,
      (bs.foldl applyRecord e).submissionDate = e.submissionDate := by
  induction bs with
  | nil => intro e; rfl
  | cons b bs ih =>
    intro e
    simpa [List.foldl_cons, ih] using submissionDate_applyRecord e b

/-- Two starting entries with the same tracked fields and the same
`submissionDate` either converge (the first record that differs in a tracked
field replaces both by the same value) or are both left untouched by the
whole per-id batch. -/
theorem applyRecord_converges (bs : List JGIGenomeProject) :
    ∀ e e' : JGIGenomeProject,
      trackedFields e = trackedFields e' →
      e.submissionDate = e'.submissionDate →
      bs.foldl applyRecord e = bs.foldl applyRecord e' ∨
        (bs.foldl applyRecord e = e ∧ bs.foldl applyRecord e' = e' ∧
          ∀ b ∈ bs, trackedFields b = trackedFields e) := by
  induction bs with
  | nil => intro e e' _ _; exact Or.inr ⟨rfl, rfl, by simp⟩
  | cons b bs ih =>
    intro e e' ht hs
    by_cases hc : hasChanges e b
    · have hc' : hasChanges e' b := by
        rw [hasChanges_iff] at hc ⊢; rwa [← ht]
      left
      simp only [List.foldl_cons, applyRecord_of_changes hc,
        applyRecord_of_changes hc', hs]
    · have hcf : hasChanges e b = false := by simpa using hc
      have hcf' : hasChanges e' b = false := by
        rw [← Bool.not_eq_true] at *
        rw [hasChanges_iff] at hcf ⊢
        simp only [Decidable.not_not] at *
        rw [← ht]; exact hcf
      rcases ih e e' ht hs with h | ⟨h1, h2, h3⟩
      · left
        simpa [List.foldl_cons, applyRecord_of_no_changes hcf,
          applyRecord_of_no_changes hcf'] using h
      · right
        refine ⟨?_, ?_, ?_⟩
        · simpa [List.foldl_cons, applyRecord_of_no_changes hcf] using h1
        · simpa [List.foldl_cons, applyRecord_of_no_changes hcf'] using h2
        · intro c hcmem
          rcases List.mem_cons.mp hcmem with rfl | hcm
          · have : trackedFields e = trackedFields c := by
              have := hcf
              rw [← Bool.not_eq_true, hasChanges_iff, Decidable.not_not] at this
              exact this
            exact this.symm
          · exact h3 c hcm

/-- Core idempotence of the per-id fold: re-applying the whole batch to its
own result leaves the entry unchanged. -/
theorem foldl_applyRecord_idem (bs : List JGIGenomeProject) :
    ∀ e : JGIGenomeProject,
      bs.foldl applyRecord (bs.foldl applyRecord e) = bs.foldl applyRecord e := by
  induction bs with
  | nil => intro e; rfl
  | cons b bs ih =>
    intro e
    have hfold : List.foldl applyRecord e (b :: bs) =
        bs.foldl applyRecord (applyRecord e b) := List.foldl_cons ..
    rw [hfold, List.foldl_cons]
    -- goal: bs.foldl applyRecord (applyRecord E b) = E
    -- where E := bs.foldl applyRecord (applyRecord e b)
    by_cases hc : hasChanges (bs.foldl applyRecord (applyRecord e b)) b
    · by_cases hc0 : hasChanges e b
      · -- the replay's first step replaces `E` by the value it already has
        have hsub : (bs.foldl applyRecord (applyRecord e b)).submissionDate =
            e.submissionDate := by
          rw [submissionDate_foldl_applyRecord, submissionDate_applyRecord]
        have hstep : applyRecord (bs.foldl applyRecord (applyRecord e b)) b =
            applyRecord e b := by
          rw [applyRecord_of_changes hc, hsub, applyRecord_of_changes hc0]
        rw [hstep]
      · -- first pass kept `e`; convergence forces the replay to agree
        have hcf0 : hasChanges e b = false := by simpa using hc0
        have hkeep : applyRecord e b = e := applyRecord_of_no_changes hcf0
        rw [hkeep] at hc ⊢
        have hsub : (bs.foldl applyRecord e).submissionDate =
            e.submissionDate := submissionDate_foldl_applyRecord bs e
        have hw : applyRecord (bs.foldl applyRecord e) b =
            { b with submissionDate := e.submissionDate } := by
          rw [applyRecord_of_changes hc, hsub]
        have htw : trackedFields { b with submissionDate := e.submissionDate } =
            trackedFields e := by
          rw [trackedFields_withSub]
          have hnc := hcf0
          rw [← Bool.not_eq_true, hasChanges_iff, Decidable.not_not] at hnc
          exact hnc.symm
        have hsw : ({ b with submissionDate := e.submissionDate } :
            JGIGenomeProject).submissionDate = e.submissionDate := rfl
        rcases applyRecord_converges bs { b with submissionDate := e.submissionDate }
            e htw hsw with h | ⟨_, h2, _⟩
        · rw [hw, h]
        · -- impossible: every tracked field in `bs` equals `e`'s, so `E = e`
          exfalso
          rw [hasChanges_iff] at hc
          apply hc
          rw [h2]
          have hnc := hcf0
          rw [← Bool.not_eq_true, hasChanges_iff, Decidable.not_not] at hnc
          exact hnc
    · -- replay keeps `E`; reduce to the induction hypothesis
      have hcf : hasChanges (bs.foldl applyRecord (applyRecord e b)) b = false := by
        simpa using hc
      rw [applyRecord_of_no_changes hcf, ih]

theorem withSub_self (p : JGIGenomeProject) :
    ({ p with submissionDate := p.submissionDate } : JGIGenomeProject) = p := rfl

theorem perIdFold_some (bs : List JGIGenomeProject) :
    ∀ e : JGIGenomeProject,
      perIdFold (some e) bs = some (bs.foldl applyRecord e) := by
  induction bs with
  | nil => intro e; rfl
  | cons b bs ih => intro e; simpa [perIdFold, perIdStep] using ih (applyRecord e b)

/-- Idempotence of the per-id fold, including the insert-on-first-sight case. -/
theorem perIdFold_idem (o : Option JGIGenomeProject)
    (bs : List JGIGenomeProject) :
    perIdFold (perIdFold o bs) bs = perIdFold o bs := by
  rcases o with _ | e
  · rcases bs with _ | ⟨c, cs⟩
    · rfl
    · have h1 : perIdFold none (c :: cs) = some (cs.foldl applyRecord c) :=
        perIdFold_some cs c
      rw [h1]
      have h2 : perIdFold (some (cs.foldl applyRecord c)) (c :: cs) =
          some (cs.foldl applyRecord (applyRecord (cs.foldl applyRecord c) c)) :=
        perIdFold_some cs (applyRecord (cs.foldl applyRecord c) c)
      rw [h2]
      by_cases hc : hasChanges (cs.foldl applyRecord c) c
      · have : applyRecord (cs.foldl applyRecord c) c = c := by
          rw [applyRecord_of_changes hc, submissionDate_foldl_applyRecord,
            withSub_self]
        rw [this]
      · have hcf : hasChanges (cs.foldl applyRecord c) c = false := by simpa using hc
        rw [applyRecord_of_no_changes hcf, foldl_applyRecord_idem]
  · rw [perIdFold_some, perIdFold_some, foldl_applyRecord_idem]

/-! ## Projecting the merge fold to a single id -/

theorem mapGet_mergeStep_self (st : MergeState) (b : JGIGenomeProject) :
    mapGet (mergeStep st b).1 b.id = perIdStep (mapGet st.1 b.id) b := by
  rcases h : mapGet st.1 b.id with _ | e
  · simp only [mergeStep, h, perIdStep]
    exact mapGet_mapSet_self st.1 b
  · simp only [mergeStep, h, perIdStep]
    by_cases hc : hasChanges e b
    · simp only [hc, if_true]
      rw [applyRecord_of_changes hc]
      exact mapGet_mapSet_self st.1 { b with submissionDate := e.submissionDate }
    · have hcf : hasChanges e b = false := by simpa using hc
      simp only [hcf, Bool.false_eq_true, if_false]
      rw [applyRecord_of_no_changes hcf, h]

theorem mapGet_mergeStep_ne {i : String} (st : MergeState)
    (b : JGIGenomeProject) (h : i ≠ b.id) :
    mapGet (mergeStep st b).1 i = mapGet st.1 i := by
  rcases hg : mapGet st.1 b.id with _ | e
  · simp only [mergeStep, hg]
    exact mapGet_mapSet_ne st.1 b h
  · simp only [mergeStep, hg]
    by_cases hc : hasChanges e b
    · simp only [hc, if_true]
      exact mapGet_mapSet_ne st.1 { b with submissionDate := e.submissionDate } h
    · have hcf : hasChanges e b = false := by simpa using hc
      simp only [hcf, Bool.false_eq_true, if_false]

/-- The merge fold, projected to one id, is the per-id fold over the batch
records with that id. -/
theorem mapGet_foldl_mergeStep (bs : List JGIGenomeProject) :
    ∀ (st : MergeState) (i : String),
      mapGet (bs.foldl mergeStep st).1 i =
        perIdFold (mapGet st.1 i) (bs.filter (fun b => b.id == i)) := by
  induction bs with
  | nil => intro st i; rfl
  | cons b bs ih =>
    intro st i
    rw [List.foldl_cons]
    by_cases hbi : b.id = i
    · rw [List.filter_cons_of_pos (by simpa using hbi)]
      rw [ih]
      have : mapGet (mergeStep st b).1 i = perIdStep (mapGet st.1 i) b := by
        rw [← hbi]
        exact mapGet_mergeStep_self st b
      rw [this]
      rfl
    · rw [List.filter_cons_of_neg (by simpa using hbi)]
      rw [ih]
      rw [mapGet_mergeStep_ne st b (fun hc => hbi hc.symm)]

/-! ## Keys, counts, extensionality and rebuilding -/

theorem ids_mapSet_sub (m : List JGIGenomeProject) (p : JGIGenomeProject) :
    ids m ⊆ ids (mapSet m p) := by
  by_cases hp : p.id ∈ ids m
  · rw [ids_mapSet_present hp]
    exact fun i h => h
  · rw [ids_mapSet_new hp]
    exact List.subset_append_left _ _

theorem mergeStep_of_get_some {st : MergeState} {b e : JGIGenomeProject}
    (hg : mapGet st.1 b.id = some e) :
    mergeStep st b =
      if hasChanges e b then
        (mapSet st.1 { b with submissionDate := e.submissionDate },
         st.2.1, st.2.2 + 1)
      else st := by
  simp only [mergeStep, hg]

theorem mergeStep_of_get_none {st : MergeState} {b : JGIGenomeProject}
    (hg : mapGet st.1 b.id = none) :
    mergeStep st b = (mapSet st.1 b, st.2.1 + 1, st.2.2) := by
  simp only [mergeStep, hg]

theorem ids_mergeStep_sub (st : MergeState) (b : JGIGenomeProject) :
    ids st.1 ⊆ ids (mergeStep st b).1 := by
  rcases hg : mapGet st.1 b.id with _ | e
  · simp only [mergeStep, hg]
    exact ids_mapSet_sub st.1 b
  · simp only [mergeStep, hg]
    by_cases hc : hasChanges e b
    · simp only [hc, if_true]
      exact ids_mapSet_sub st.1 _
    · have hcf : hasChanges e b = false := by simpa using hc
      simp only [hcf, Bool.false_eq_true, if_false]
      exact fun i h => h

theorem ids_foldl_mergeStep_sub (bs : List JGIGenomeProject) :
    ∀ st : MergeState, ids st.1 ⊆ ids (bs.foldl mergeStep st).1 := by
  induction bs with
  | nil => intro st i h; exact h
  | cons b bs ih =>
    intro st i h
    rw [List.foldl_cons]
    exact ih (mergeStep st b) (ids_mergeStep_sub st b h)

theorem mem_ids_mergeStep (st : MergeState) (b : JGIGenomeProject) :
    b.id ∈ ids (mergeStep st b).1 := by
  rcases hg : mapGet st.1 b.id with _ | e
  · simp only [mergeStep, hg]
    by_cases hp : b.id ∈ ids st.1
    · rw [ids_mapSet_present hp]; exact hp
    · rw [ids_mapSet_new hp]; simp
  · have hmem : b.id ∈ ids st.1 := mapGet_isSome_iff.mp ⟨e, hg⟩
    exact ids_mergeStep_sub st b hmem

/-- Every id of the batch occurs in the merged map. -/
theorem batch_ids_mem_foldl (bs : List JGIGenomeProject) :
    ∀ st : MergeState, ∀ b ∈ bs, b.id ∈ ids (bs.foldl mergeStep st).1 := by
  induction bs with
  | nil => intro st b h; cases h
  | cons c bs ih =>
    intro st b hb
    rw [List.foldl_cons]
    rcases List.mem_cons.mp hb with rfl | hbs
    · exact ids_foldl_mergeStep_sub bs (mergeStep st b) (mem_ids_mergeStep st b)
    · exact ih (mergeStep st c) b hbs

/-- When every incoming id is already present, the merge fold does not create
ids and does not increment `newCount`; both counters are determined by the
entries the records are compared against. -/
theorem foldl_mergeStep_on_present (bs : List JGIGenomeProject) :
    ∀ st : MergeState, (∀ b ∈ bs, b.id ∈ ids st.1) →
      ids (bs.foldl mergeStep st).1 = ids st.1 ∧
        (bs.foldl mergeStep st).2.1 = st.2.1 := by
  induction bs with
  | nil => intro st _; exact ⟨rfl, rfl⟩
  | cons b bs ih =>
    intro st hall
    obtain ⟨e, hg⟩ := mapGet_isSome_iff.mpr (hall b (List.mem_cons_self b bs))
    have hgrow : ids (mergeStep st b).1 = ids st.1 ∧
        (mergeStep st b).2.1 = st.2.1 := by
      rw [mergeStep_of_get_some hg]
      by_cases hc : hasChanges e b
      · have hmem : ({ b with submissionDate := e.submissionDate } :
            JGIGenomeProject).id ∈ ids st.1 := hall b (List.mem_cons_self b bs)
        rw [if_pos hc]
        exact ⟨ids_mapSet_present hmem, rfl⟩
      · rw [if_neg hc]
        exact ⟨rfl, rfl⟩
    rw [List.foldl_cons]
    have hall' : ∀ c ∈ bs, c.id ∈ ids (mergeStep st b).1 := by
      intro c hc
      rw [hgrow.1]
      exact hall c (List.mem_cons_of_mem b hc)
    obtain ⟨h1, h2⟩ := ih (mergeStep st b) hall'
    exact ⟨h1.trans hgrow.1, h2.trans hgrow.2⟩

/-- Extensionality: two well-formed maps with the same id sequence and the
same lookups are equal. -/
theorem map_ext : ∀ {m m' : List JGIGenomeProject},
    DistinctIds m → DistinctIds m' → ids m = ids m' →
    (∀ i, mapGet m i = mapGet m' i) → m = m'
  | [], [], _, _, _, _ => rfl
  | [], q' :: m', _, _, hids, _ => by simp [ids] at hids
  | q :: m, [], _, _, hids, _ => by simp [ids] at hids
  | q :: m, q' :: m', hd, hd', hids, hget => by
    have hqq' : q.id = q'.id := by simpa [ids] using congrArg (·.headD "") hids
    have hq : q = q' := by
      have h1 := hget q.id
      rw [show mapGet (q :: m) q.id = some q by simp [mapGet]] at h1
      rw [show mapGet (q' :: m') q.id = some q' by simp [mapGet, hqq'.symm]] at h1
      exact (Option.some.injEq ..).mp h1.symm |>.symm
    have htails : ids m = ids m' := by
      have : q.id :: ids m = q'.id :: ids m' := by simpa [ids] using hids
      exact (List.cons.injEq ..).mp this |>.2
    have hdm : DistinctIds m := (List.pairwise_cons.mp hd).2
    have hdm' : DistinctIds m' := (List.pairwise_cons.mp hd').2
    have hnm : q.id ∉ ids m := by
      intro hmem
      obtain ⟨a, ham, haid⟩ := List.mem_map.mp hmem
      exact (List.pairwise_cons.mp hd).1 a ham haid.symm
    have hnm' : q'.id ∉ ids m' := by
      intro hmem
      obtain ⟨a, ham, haid⟩ := List.mem_map.mp hmem
      exact (List.pairwise_cons.mp hd').1 a ham haid.symm
    have hgets : ∀ i, mapGet m i = mapGet m' i := by
      intro i
      by_cases hi : i = q.id
      · subst hi
        rw [mapGet_eq_none_iff.mpr hnm, mapGet_eq_none_iff.mpr (hqq' ▸ hnm')]
      · have hne1 : q.id ≠ i := fun hc => hi hc.symm
        have hne2 : q'.id ≠ i := fun hc => hi (hqq'.trans hc).symm
        have h1 := hget i
        rw [show mapGet (q :: m) i = mapGet m i by simp [mapGet, hne1]] at h1
        rw [show mapGet (q' :: m') i = mapGet m' i by simp [mapGet, hne2]] at h1
        exact h1
    rw [hq, map_ext hdm hdm' htails hgets]

/-- Re-inserting the elements of a well-formed map into an empty map (what
`mergeAndDeduplicate` does with the previous merge's output) reproduces it. -/
theorem mapSet_append {acc : List JGIGenomeProject} {p : JGIGenomeProject}
    (h : p.id ∉ ids acc) : mapSet acc p = acc ++ [p] := by
  induction acc with
  | nil => rfl
  | cons q acc ih =>
    have h1 : ¬(p.id = q.id ∨ p.id ∈ ids acc) := by simpa [ids] using h
    push_neg at h1
    have hq : q.id ≠ p.id := fun hc => h1.1 hc.symm
    simp only [mapSet, if_neg hq, List.cons_append]
    rw [ih h1.2]

theorem foldl_mapSet_append : ∀ (rest acc : List JGIGenomeProject),
    (ids (acc ++ rest)).Nodup → rest.foldl mapSet acc = acc ++ rest := by
  intro rest
  induction rest with
  | nil => intro acc _; simp
  | cons q rest ih =>
    intro acc hnd
    have hids : ids (acc ++ q :: rest) = ids acc ++ q.id :: ids rest := by
      simp [ids]
    rw [hids] at hnd
    have hq : q.id ∉ ids acc := by
      intro hmem
      have := List.disjoint_of_nodup_append hnd hmem
      simp at this
    rw [List.foldl_cons, mapSet_append hq]
    have : ids ((acc ++ [q]) ++ rest) = ids acc ++ q.id :: ids rest := by
      simp [ids]
    rw [ih (acc ++ [q]) (by rw [this]; exact hnd)]
    simp

theorem buildMap_of_distinct {m : List JGIGenomeProject}
    (h : DistinctIds m) : buildMap m = m := by
  unfold buildMap
  have : ids ([] ++ m) = ids m := by simp [ids]
  rw [foldl_mapSet_append m [] (by rw [this]; exact distinctIds_iff_nodup.mp h)]
  simp

theorem distinctIds_mergeStep (st : MergeState) (b : JGIGenomeProject)
    (h : DistinctIds st.1) : DistinctIds (mergeStep st b).1 := by
  rcases hg : mapGet st.1 b.id with _ | e
  · simp only [mergeStep, hg]
    exact distinctIds_mapSet b h
  · simp only [mergeStep, hg]
    by_cases hc : hasChanges e b
    · simp only [hc, if_true]
      exact distinctIds_mapSet _ h
    · have hcf : hasChanges e b = false := by simpa using hc
      simp only [hcf, Bool.false_eq_true, if_false]
      exact h

theorem distinctIds_foldl_mergeStep (bs : List JGIGenomeProject) :
    ∀ st : MergeState, DistinctIds st.1 →
      DistinctIds (bs.foldl mergeStep st).1 := by
  induction bs with
  | nil => intro st h; exact h
  | cons b bs ih =>
    intro st h
    rw [List.foldl_cons]
    exact ih (mergeStep st b) (distinctIds_mergeStep st b h)

theorem distinctIds_buildMap (m : List JGIGenomeProject) :
    DistinctIds (buildMap m) := by
  unfold buildMap
  induction m using List.reverseRecOn with
  | nil => exact List.Pairwise.nil
  | append_singleton m p ih =>
    rw [List.foldl_append]
    exact distinctIds_mapSet p ih

theorem distinctIds_merged (master news : List JGIGenomeProject) :
    DistinctIds (mergeAndDeduplicate master news).merged :=
  distinctIds_foldl_mergeStep news (buildMap master, 0, 0)
    (distinctIds_buildMap master)

/-! ## No-op second pass under distinct ids -/

theorem hasChanges_self (b : JGIGenomeProject) : hasChanges b b = false := by
  simp [hasChanges]

theorem hasChanges_applyRecord (e b : JGIGenomeProject) :
    hasChanges (applyRecord e b) b = false := by
  simp [hasChanges, trackedFields_applyRecord]

/-- If every record of the batch compares unchanged against its current map
entry, the merge fold is a complete no-op (map and both counters). -/
theorem foldl_mergeStep_noop (bs : List JGIGenomeProject) :
    ∀ st : MergeState,
      (∀ b ∈ bs, ∃ e, mapGet st.1 b.id = some e ∧ hasChanges e b = false) →
      bs.foldl mergeStep st = st := by
  induction bs with
  | nil => intro st _; rfl
  | cons b bs ih =>
    intro st hall
    obtain ⟨e, hg, hc⟩ := hall b (List.mem_cons_self b bs)
    have hstep : mergeStep st b = st := by
      rw [mergeStep_of_get_some hg, if_neg (by simp [hc])]
    rw [List.foldl_cons, hstep]
    exact ih st (fun c hcm => hall c (List.mem_cons_of_mem b hcm))

theorem filter_id_of_distinct :
    ∀ {bs : List JGIGenomeProject} {b : JGIGenomeProject},
      DistinctIds bs → b ∈ bs → bs.filter (fun c => c.id == b.id) = [b]
  | [], b, _, hb => by cases hb
  | c :: bs, b, hd, hb => by
    rcases List.mem_cons.mp hb with rfl | hbs
    · rw [List.filter_cons_of_pos (by simp)]
      have hrest : bs.filter (fun q => q.id == b.id) = [] := by
        rw [List.filter_eq_nil_iff]
        intro q hq
        have := (List.pairwise_cons.mp hd).1 q hq
        simp [this.symm]
      rw [hrest]
    · have hne : c.id ≠ b.id := (List.pairwise_cons.mp hd).1 b hbs
      rw [List.filter_cons_of_neg (by simp [hne])]
      exact filter_id_of_distinct (List.pairwise_cons.mp hd).2 hbs

/-- After the first pass, each batch record compares unchanged against its
merged entry — provided no other batch record shares its id. -/
theorem merged_entry_unchanged {master news : List JGIGenomeProject}
    (hd : DistinctIds news) {b : JGIGenomeProject} (hb : b ∈ news) :
    ∃ e, mapGet (mergeAndDeduplicate master news).merged b.id = some e ∧
      hasChanges e b = false := by
  have hproj := mapGet_foldl_mergeStep news (buildMap master, 0, 0) b.id
  rw [filter_id_of_distinct hd hb] at hproj
  rcases hg : mapGet (buildMap master) b.id with _ | e0
  · refine ⟨b, ?_, hasChanges_self b⟩
    show mapGet (news.foldl mergeStep (buildMap master, 0, 0)).1 b.id = some b
    rw [hproj, hg]
    rfl
  · refine ⟨applyRecord e0 b, ?_, hasChanges_applyRecord e0 b⟩
    show mapGet (news.foldl mergeStep (buildMap master, 0, 0)).1 b.id =
      some (applyRecord e0 b)
    rw [hproj, hg]
    rfl

/-! ## Claim C1 -/

/-- Claim C1, refuted part: with two same-id records in the batch that differ
in a tracked field, the second application of the merge reports a non-zero
`updatedCount` (here 2, one per duplicate), contradicting "the second
application reports newCount = 0 and updatedCount = 0". -/
def sampleMetaB : OrganismMetadata := { domain := "Bacteria" }

def recX1 : JGIGenomeProject :=
  { id := "X", name := "x", organism := "x", sequenceType := "Genome Assembly",
    status := "available", submissionDate := "2025-01-01T00:00:00Z",
    geneCount := some 100, metadata := sampleMetaB }

def recX2 : JGIGenomeProject :=
  { id := "X", name := "x", organism := "x", sequenceType := "Genome Assembly",
    status := "available", submissionDate := "2025-02-02T00:00:00Z",
    geneCount := some 150, metadata := sampleMetaB }

/-- Claim C1 (corrected), counterexample: reconciling the batch
`[recX1, recX2]` (same id, different `geneCount`) into the empty master and
then reconciling the same batch into the result reports `updatedCount = 2`,
not `0` as the claim demands. -/
theorem C1_counterexample :
    (mergeAndDeduplicate
        (mergeAndDeduplicate [] [recX1, recX2]).merged
        [recX1, recX2]).stats.updatedCount = 2 ∧ (2 : Nat) ≠ 0 := by
  constructor
  · rfl
  · decide

/-- Claim C1 (corrected): reconciliation is idempotent on the dataset —
`reconcile(reconcile(M,B),B)` always returns the dataset of
`reconcile(M,B)` unchanged (hence also an equal `totalCount`), and the
second application always reports `newCount = 0`; but the second
application's `updatedCount` is only guaranteed to be `0` when the batch
contains no two records with the same id (it can be positive when same-id
records differing in tracked fields occur, see the counterexample). -/
theorem C1_reconcile_idempotent (master news : List JGIGenomeProject) :
    (mergeAndDeduplicate (mergeAndDeduplicate master news).merged news).merged =
        (mergeAndDeduplicate master news).merged ∧
      (mergeAndDeduplicate
          (mergeAndDeduplicate master news).merged news).stats.newCount = 0 ∧
      (mergeAndDeduplicate
            (mergeAndDeduplicate master news).merged news).stats.totalCount =
        (mergeAndDeduplicate master news).stats.totalCount ∧
      (DistinctIds news →
        (mergeAndDeduplicate
            (mergeAndDeduplicate master news).merged news).stats.updatedCount = 0) := by
  have hm1d : DistinctIds (mergeAndDeduplicate master news).merged :=
    distinctIds_merged master news
  have hrebuild : buildMap (mergeAndDeduplicate master news).merged =
      (mergeAndDeduplicate master news).merged := buildMap_of_distinct hm1d
  -- the second pass never sees a fresh id
  have hallmem : ∀ b ∈ news,
      b.id ∈ ids (mergeAndDeduplicate master news).merged := by
    intro b hb
    exact batch_ids_mem_foldl news (buildMap master, 0, 0) b hb
  have hpresent := foldl_mergeStep_on_present news
    ((mergeAndDeduplicate master news).merged, 0, 0) hallmem
  -- dataset equality via extensionality and per-id idempotence
  have hmerged :
      (mergeAndDeduplicate (mergeAndDeduplicate master news).merged news).merged =
        (mergeAndDeduplicate master news).merged := by
    apply map_ext
    · show DistinctIds (news.foldl mergeStep
        (buildMap (mergeAndDeduplicate master news).merged, 0, 0)).1
      rw [hrebuild]
      exact distinctIds_foldl_mergeStep news _ hm1d
    · exact hm1d
    · show ids (news.foldl mergeStep
        (buildMap (mergeAndDeduplicate master news).merged, 0, 0)).1 = _
      rw [hrebuild]
      exact hpresent.1
    · intro i
      show mapGet (news.foldl mergeStep
        (buildMap (mergeAndDeduplicate master news).merged, 0, 0)).1 i = _
      rw [hrebuild]
      rw [mapGet_foldl_mergeStep news ((mergeAndDeduplicate master news).merged, 0, 0) i]
      show perIdFold
        (mapGet (news.foldl mergeStep (buildMap master, 0, 0)).1 i) _ = _
      rw [mapGet_foldl_mergeStep news (buildMap master, 0, 0) i]
      rw [perIdFold_idem]
      exact (mapGet_foldl_mergeStep news (buildMap master, 0, 0) i).symm
  refine ⟨hmerged, ?_, ?_, ?_⟩
  · show (news.foldl mergeStep
      (buildMap (mergeAndDeduplicate master news).merged, 0, 0)).2.1 = 0
    rw [hrebuild]
    exact hpresent.2
  · show (news.foldl mergeStep
        (buildMap (mergeAndDeduplicate master news).merged, 0, 0)).1.length = _
    have := congrArg List.length hmerged
    exact this
  · intro hd
    show (news.foldl mergeStep
      (buildMap (mergeAndDeduplicate master news).merged, 0, 0)).2.2 = 0
    rw [hrebuild]
    rw [foldl_mergeStep_noop news ((mergeAndDeduplicate master news).merged, 0, 0)
      (fun b hb => merged_entry_unchanged hd hb)]

/-- Claim C1, witness: the amended theorem applied at a concrete master and a
duplicate-free batch, all conclusions evaluated. -/
theorem C1_witness :
    DistinctIds [recX1] ∧
      (mergeAndDeduplicate (mergeAndDeduplicate [recX2] [recX1]).merged
          [recX1]).merged =
        (mergeAndDeduplicate [recX2] [recX1]).merged ∧
      (mergeAndDeduplicate (mergeAndDeduplicate [recX2] [recX1]).merged
          [recX1]).stats.updatedCount = 0 :=
  ⟨by decide,
   (C1_reconcile_idempotent [recX2] [recX1]).1,
   (C1_reconcile_idempotent [recX2] [recX1]).2.2.2 (by decide)⟩

/-! ## Claim C2 -/

/-- Claim C2 (confirmed): submission-date immutability.  (i) A record whose id
exists in the map and whose tracked fields (`sequenceLength`, `geneCount`,
`status`, `metadata`) differ from the stored entry replaces it by the
incoming record with the stored entry's `submissionDate`, incrementing
`updatedCount` by one; (ii) a record with no tracked change leaves the state
completely untouched and is not counted; (iii) across a whole merge, the
entry of any id present in the master keeps the master entry's
`submissionDate` (which is therefore, by induction over successive merges,
the first-ever observed one). -/
theorem C2_submissionDate_immutable :
    (∀ (m : List JGIGenomeProject) (n u : Nat) (p e : JGIGenomeProject),
        mapGet m p.id = some e → hasChanges e p = true →
        mergeStep (m, n, u) p =
          (mapSet m { p with submissionDate := e.submissionDate }, n, u + 1)) ∧
      (∀ (m : List JGIGenomeProject) (n u : Nat) (p e : JGIGenomeProject),
          mapGet m p.id = some e → hasChanges e p = false →
          mergeStep (m, n, u) p = (m, n, u)) ∧
      (∀ (master news : List JGIGenomeProject) (i : String)
          (e e' : JGIGenomeProject),
          mapGet (buildMap master) i = some e →
          mapGet (mergeAndDeduplicate master news).merged i = some e' →
          e'.submissionDate = e.submissionDate) := by
  refine ⟨?_, ?_, ?_⟩
  · intro m n u p e hg hc
    rw [mergeStep_of_get_some hg, if_pos hc]
  · intro m n u p e hg hc
    rw [mergeStep_of_get_some hg, if_neg (by simp [hc])]
  · intro master news i e e' hg hg'
    have hproj := mapGet_foldl_mergeStep news (buildMap master, 0, 0) i
    have hmg : mapGet (mergeAndDeduplicate master news).merged i =
        perIdFold (some e) (news.filter (fun b => b.id == i)) := by
      show mapGet (news.foldl mergeStep (buildMap master, 0, 0)).1 i = _
      rw [hproj]
      show perIdFold (mapGet (buildMap master) i) _ = _
      rw [hg]
    rw [hmg, perIdFold_some] at hg'
    have he' : e' = (news.filter (fun b => b.id == i)).foldl applyRecord e :=
      (Option.some.inj hg').symm
    rw [he', submissionDate_foldl_applyRecord]

/-- Claim C2, witness: spec Scenario B — master holds id `X` with
`geneCount = 100`; the batch re-observes `X` with `geneCount = 150` and a
different `submissionDate`; the merged entry keeps the original
`submissionDate`, and the single-step semantics produce `updatedCount = 1`. -/
theorem C2_witness :
    mapGet (buildMap [recX1]) recX2.id = some recX1 ∧
      hasChanges recX1 recX2 = true ∧
      mergeStep (buildMap [recX1], 0, 0) recX2 =
        (mapSet (buildMap [recX1])
          { recX2 with submissionDate := recX1.submissionDate }, 0, 1) ∧
      mapGet (mergeAndDeduplicate [recX1] [recX2]).merged "X" =
        some { recX2 with submissionDate := recX1.submissionDate } ∧
      ({ recX2 with submissionDate := recX1.submissionDate} :
          JGIGenomeProject).submissionDate = recX1.submissionDate :=
  ⟨by decide, by decide,
   C2_submissionDate_immutable.1 (buildMap [recX1]) 0 0 recX2 recX1
     (by decide) (by decide),
   by decide,
   C2_submissionDate_immutable.2.2 [recX1] [recX2] "X" recX1
     { recX2 with submissionDate := recX1.submissionDate }
     (by decide) (by decide)⟩

/-! ## Claim C3 -/

/-- With pairwise-distinct batch ids, each record is compared against the
entry the pre-merge map holds for its id, so `newCount`/`updatedCount` are
plain counts over the batch — an order-independent quantity. -/
theorem foldl_mergeStep_counts (bs : List JGIGenomeProject) :
    ∀ (m : List JGIGenomeProject) (n u : Nat)
      (orig : String → Option JGIGenomeProject),
      (∀ b ∈ bs, mapGet m b.id = orig b.id) → DistinctIds bs →
      (bs.foldl mergeStep (m, n, u)).2.1 =
          n + bs.countP (fun b => (orig b.id).isNone) ∧
        (bs.foldl mergeStep (m, n, u)).2.2 =
          u + bs.countP (fun b =>
            match orig b.id with
            | some e => hasChanges e b
            | none => false) := by
  induction bs with
  | nil => intro m n u orig _ _; simp
  | cons b bs ih =>
    intro m n u orig hall hd
    have hb := hall b (List.mem_cons_self b bs)
    have hne : ∀ c ∈ bs, c.id ≠ b.id :=
      fun c hc => fun hcb => (List.pairwise_cons.mp hd).1 c hc hcb.symm
    have hd' : DistinctIds bs := (List.pairwise_cons.mp hd).2
    rw [List.foldl_cons, List.countP_cons, List.countP_cons]
    rcases hg : orig b.id with _ | e
    · rw [hg] at hb
      rw [mergeStep_of_get_none hb]
      have hall' : ∀ c ∈ bs, mapGet (mapSet m b) c.id = orig c.id := by
        intro c hc
        rw [mapGet_mapSet_ne m b (hne c hc)]
        exact hall c (List.mem_cons_of_mem b hc)
      obtain ⟨h1, h2⟩ := ih (mapSet m b) (n + 1) u orig hall' hd'
      constructor
      · rw [h1]; simp; omega
      · rw [h2]; simp
    · rw [hg] at hb
      rw [mergeStep_of_get_some hb]
      by_cases hc : hasChanges e b
      · rw [if_pos hc]
        have hall' : ∀ c ∈ bs,
            mapGet (mapSet m { b with submissionDate := e.submissionDate }) c.id =
              orig c.id := by
          intro c hcm
          rw [mapGet_mapSet_ne m { b with submissionDate := e.submissionDate }
            (hne c hcm)]
          exact hall c (List.mem_cons_of_mem b hcm)
        obtain ⟨h1, h2⟩ := ih _ n (u + 1) orig hall' hd'
        constructor
        · rw [h1]; simp
        · rw [h2]; simp [hc]; omega
      · rw [if_neg hc]
        obtain ⟨h1, h2⟩ := ih m n u orig
          (fun c hcm => hall c (List.mem_cons_of_mem b hcm)) hd'
        constructor
        · rw [h1]; simp
        · rw [h2]
          have : hasChanges e b = false := by simpa using hc
          simp [this]

theorem filter_id_length_le_one {bs : List JGIGenomeProject}
    (hd : DistinctIds bs) (i : String) :
    (bs.filter (fun b => b.id == i)).length ≤ 1 := by
  induction bs with
  | nil => simp
  | cons c bs ih =>
    by_cases hc : c.id = i
    · rw [List.filter_cons_of_pos (by simp [hc])]
      have hrest : bs.filter (fun b => b.id == i) = [] := by
        rw [List.filter_eq_nil_iff]
        intro q hq
        have := (List.pairwise_cons.mp hd).1 q hq
        simp [hc ▸ this.symm]
      rw [hrest]
      simp
    · rw [List.filter_cons_of_neg (by simp [hc])]
      exact ih (List.pairwise_cons.mp hd).2

theorem perm_eq_of_length_le_one {l l' : List JGIGenomeProject}
    (h : l.Perm l') (hlen : l.length ≤ 1) : l = l' := by
  cases l with
  | nil => rw [h.symm.eq_nil]
  | cons a t =>
    cases t with
    | nil => exact (List.perm_singleton.mp h.symm).symm
    | cons b t2 => simp at hlen

/-- Claim C3, refuted part: with two same-id records in the batch, the merge
is order-dependent — reversing `[recX1, recX2]` changes the merged entry of
id `X` (both its tracked `geneCount` and its kept `submissionDate`). -/
theorem C3_counterexample :
    mapGet (mergeAndDeduplicate [] [recX1, recX2]).merged "X" ≠
      mapGet (mergeAndDeduplicate [] [recX2, recX1]).merged "X" := by
  decide

/-- Claim C3 (corrected): order independence of reconciliation holds for
batches with pairwise-distinct ids — any permutation of such a batch yields
the same dataset (same lookup for every id) and identical
`newCount`/`updatedCount`/`totalCount` statistics.  It fails when the batch
contains two records with the same id (see the counterexample), contrary to
the claim's "including when B contains two records with the same id". -/
theorem C3_order_independent (master news news' : List JGIGenomeProject)
    (hperm : news.Perm news') (hd : DistinctIds news) :
    (∀ i, mapGet (mergeAndDeduplicate master news').merged i =
        mapGet (mergeAndDeduplicate master news).merged i) ∧
      (mergeAndDeduplicate master news').stats.newCount =
        (mergeAndDeduplicate master news).stats.newCount ∧
      (mergeAndDeduplicate master news').stats.updatedCount =
        (mergeAndDeduplicate master news).stats.updatedCount ∧
      (mergeAndDeduplicate master news').stats.totalCount =
        (mergeAndDeduplicate master news).stats.totalCount := by
  have hd' : DistinctIds news' :=
    (hperm.pairwise_iff (fun h hc => h hc.symm)).mp hd
  have hmap : ∀ i, mapGet (mergeAndDeduplicate master news').merged i =
      mapGet (mergeAndDeduplicate master news).merged i := by
    intro i
    show mapGet (news'.foldl mergeStep (buildMap master, 0, 0)).1 i =
      mapGet (news.foldl mergeStep (buildMap master, 0, 0)).1 i
    rw [mapGet_foldl_mergeStep, mapGet_foldl_mergeStep]
    have hfil : news'.filter (fun b => b.id == i) =
        news.filter (fun b => b.id == i) :=
      perm_eq_of_length_le_one (hperm.symm.filter _) (filter_id_length_le_one hd' i)
    rw [hfil]
  refine ⟨hmap, ?_, ?_, ?_⟩
  · have h1 := (foldl_mergeStep_counts news (buildMap master) 0 0
      (mapGet (buildMap master)) (fun _ _ => rfl) hd).1
    have h2 := (foldl_mergeStep_counts news' (buildMap master) 0 0
      (mapGet (buildMap master)) (fun _ _ => rfl) hd').1
    show (news'.foldl mergeStep (buildMap master, 0, 0)).2.1 =
      (news.foldl mergeStep (buildMap master, 0, 0)).2.1
    rw [h1, h2, hperm.countP_eq]
  · have h1 := (foldl_mergeStep_counts news (buildMap master) 0 0
      (mapGet (buildMap master)) (fun _ _ => rfl) hd).2
    have h2 := (foldl_mergeStep_counts news' (buildMap master) 0 0
      (mapGet (buildMap master)) (fun _ _ => rfl) hd').2
    show (news'.foldl mergeStep (buildMap master, 0, 0)).2.2 =
      (news.foldl mergeStep (buildMap master, 0, 0)).2.2
    rw [h1, h2, hperm.countP_eq]
  · -- both merged maps are nodup-keyed with the same membership
    have hd1 : DistinctIds (mergeAndDeduplicate master news).merged :=
      distinctIds_merged master news
    have hd2 : DistinctIds (mergeAndDeduplicate master news').merged :=
      distinctIds_merged master news'
    have hidsperm : (ids (mergeAndDeduplicate master news').merged).Perm
        (ids (mergeAndDeduplicate master news).merged) := by
      refine (List.perm_ext_iff_of_nodup
        (distinctIds_iff_nodup.mp hd2) (distinctIds_iff_nodup.mp hd1)).mpr ?_
      intro i
      constructor
      · intro hmem
        obtain ⟨e, he⟩ := mapGet_isSome_iff.mpr hmem
        exact mapGet_isSome_iff.mp ⟨e, (hmap i) ▸ he⟩
      · intro hmem
        obtain ⟨e, he⟩ := mapGet_isSome_iff.mpr hmem
        exact mapGet_isSome_iff.mp ⟨e, (hmap i).symm ▸ he⟩
    show (news'.foldl mergeStep (buildMap master, 0, 0)).1.length =
      (news.foldl mergeStep (buildMap master, 0, 0)).1.length
    have := hidsperm.length_eq
    simpa [ids] using this

def recY : JGIGenomeProject :=
  { id := "Y", name := "y", organism := "y", sequenceType := "Genome Assembly",
    status := "available", submissionDate := "2025-03-03T00:00:00Z",
    geneCount := some 7, metadata := { domain := "Archaea" } }

/-- Claim C3, witness: the order-independence theorem applied to a concrete
two-record distinct-id batch and its reversal. -/
theorem C3_witness :
    List.Perm [recX1, recY] [recY, recX1] ∧ DistinctIds [recX1, recY] ∧
      mapGet (mergeAndDeduplicate [] [recY, recX1]).merged "X" =
        mapGet (mergeAndDeduplicate [] [recX1, recY]).merged "X" ∧
      (mergeAndDeduplicate [] [recY, recX1]).stats.newCount =
        (mergeAndDeduplicate [] [recX1, recY]).stats.newCount :=
  ⟨by decide, by decide,
   (C3_order_independent [] [recX1, recY] [recY, recX1] (by decide) (by decide)).1 "X",
   (C3_order_independent [] [recX1, recY] [recY, recX1] (by decide) (by decide)).2.1⟩

/-! ## Growth rate (`calculateGrowthRate`, analytics-processor.ts:256-268) -/

/-- `calculateGrowthRate`.  `historicalData` is `none` when yesterday's
archived overview is missing (the R2 read returned nothing), `some none`
when its `totalProjects` field is absent or null, and `some (some t)`
otherwise; the JS falsiness guard `!historicalData.totalProjects` also
rejects `t = 0`.  JS numbers are modelled as `ℚ`; `Math.round` is Mathlib's
`round` (both are `⌊x + 1/2⌋`). -/
def calculateGrowthRate (currentTotal : ℚ)
    (historicalData : Option (Option ℚ)) : ℚ :=
  match historicalData with
  | none => 0
  | some none => 0
  | some (some previousTotal) =>
    if previousTotal = 0 then 0
    else
      let growth := (currentTotal - previousTotal) / previousTotal * 100
      (round (growth * 100) : ℚ) / 100

/-- Claim C5 (confirmed): growth-rate computation is division-safe.  When the
previous overview is missing, its `totalProjects` is absent/null, or it is
`0`, the result is exactly `0`; otherwise it is
`(total - previousTotal) / previousTotal * 100` rounded to two decimals —
always a well-defined rational (the model has no `NaN`/`Infinity`, and the
only division is guarded by `previousTotal ≠ 0`), within `1/200` of the
unrounded growth rate. -/
theorem C5_growthRate_safe :
    (∀ cur : ℚ, calculateGrowthRate cur none = 0) ∧
      (∀ cur : ℚ, calculateGrowthRate cur (some none) = 0) ∧
      (∀ cur : ℚ, calculateGrowthRate cur (some (some 0)) = 0) ∧
      (∀ cur t : ℚ, t ≠ 0 →
        calculateGrowthRate cur (some (some t)) =
          (round ((cur - t) / t * 100 * 100) : ℚ) / 100) ∧
      (∀ cur t : ℚ, t ≠ 0 →
        |calculateGrowthRate cur (some (some t)) - (cur - t) / t * 100| ≤
          1 / 200) := by
  refine ⟨fun _ => rfl, fun _ => rfl,
    fun cur => by simp [calculateGrowthRate], ?_, ?_⟩
  · intro cur t ht
    simp [calculateGrowthRate, ht]
  · intro cur t ht
    have hval : calculateGrowthRate cur (some (some t)) =
        (round ((cur - t) / t * 100 * 100) : ℚ) / 100 := by
      simp [calculateGrowthRate, ht]
    rw [hval]
    have h := abs_sub_round ((cur - t) / t * 100 * 100)
    have h2 : |(round ((cur - t) / t * 100 * 100) : ℚ) / 100 -
        (cur - t) / t * 100| =
        |(round ((cur - t) / t * 100 * 100) : ℚ) -
          (cur - t) / t * 100 * 100| / 100 := by
      rw [← abs_of_pos (show (0:ℚ) < 100 by norm_num), ← abs_div]
      congr 1
      field_simp
      ring
    rw [h2]
    have h' : |(round ((cur - t) / t * 100 * 100) : ℚ) -
        (cur - t) / t * 100 * 100| ≤ 1 / 2 := by
      rw [abs_sub_comm]; exact h
    calc |(round ((cur - t) / t * 100 * 100) : ℚ) -
          (cur - t) / t * 100 * 100| / 100 ≤ (1 / 2) / 100 :=
          (div_le_div_iff_of_pos_right (by norm_num)).mpr h'
      _ = 1 / 200 := by norm_num

/-- Claim C5, witness: a concrete growth from 100 to 110 yields exactly 10%,
and the degenerate previous totals yield 0. -/
theorem C5_witness :
    calculateGrowthRate 110 (some (some 100)) = 10 ∧
      calculateGrowthRate 110 (some (some 0)) = 0 ∧
      calculateGrowthRate 110 none = 0 ∧
      (110 - 100 : ℚ) / 100 * 100 = 10 :=
  ⟨by rw [(C5_growthRate_safe.2.2.2.1 110 100 (by norm_num))]; norm_num [round_eq],
   C5_growthRate_safe.2.2.1 110,
   C5_growthRate_safe.1 110,
   by norm_num⟩

/-! ## Daily trends (`computeDailyTrends`, analytics-processor.ts:76-120) -/

/-- One row of the daily/monthly/yearly trend series. -/
structure TrendRow where
  date : String
  count : Nat
  domain : String
  deriving DecidableEq, Repr

/-- `project.submissionDate.split("T")[0]` — the day part of an ISO string. -/
def dayOfDate (s : String) : String := (s.splitOn "T").headD ""

/-- `trends.get(date)` on the grouping map (date → bacteria/archaea counts). -/
def trendGet : List (String × Nat × Nat) → String → Option (Nat × Nat)
  | [], _ => none
  | (d, c) :: t, k => if d = k then some c else trendGet t k

/-- Add a per-domain increment to the bucket of `k`, creating the bucket
(`{bacteria: 0, archaea: 0}`) if absent — the effect of one loop iteration of
the grouping pass (analytics-processor.ts:80-92). -/
def trendAdd : List (String × Nat × Nat) → String → Nat × Nat →
    List (String × Nat × Nat)
  | [], k, dl => [(k, dl)]
  | (d, c) :: t, k, dl =>
    if d = k then (d, c.1 + dl.1, c.2 + dl.2) :: t
    else (d, c) :: trendAdd t k dl

/-- The per-domain increment of one project: `count.bacteria++` for
"Bacteria", `count.archaea++` for "Archaea", nothing otherwise. -/
def domainDelta (p : JGIGenomeProject) : Nat × Nat :=
  if p.metadata.domain = "Bacteria" then (1, 0)
  else if p.metadata.domain = "Archaea" then (0, 1)
  else (0, 0)

/-- Grouping pass of `computeDailyTrends`: group all projects by submission
day. -/
def dailyAccum (projects : List JGIGenomeProject) : List (String × Nat × Nat) :=
  projects.foldl
    (fun acc p => trendAdd acc (dayOfDate p.submissionDate) (domainDelta p)) []

/-- `computeDailyTrends` (analytics-processor.ts:76-120).  `isoDay d` renders
day number `d` as `date.toISOString().split("T")[0]` does, and `today` is
the day number of `new Date()`; the rendering loop runs over the 30 days
`today - 30 + i`, `i = 0..29`, pushing a Bacteria row then an Archaea row
with zero-filled defaults. -/
def computeDailyTrends (isoDay : Int → String) (today : Int)
    (projects : List JGIGenomeProject) : List TrendRow :=
  (List.range 30).foldl
    (fun daily i =>
      daily ++
        [⟨isoDay (today - 30 + i),
          ((trendGet (dailyAccum projects) (isoDay (today - 30 + i))).getD (0, 0)).1,
          "Bacteria"⟩,
         ⟨isoDay (today - 30 + i),
          ((trendGet (dailyAccum projects) (isoDay (today - 30 + i))).getD (0, 0)).2,
          "Archaea"⟩])
    []

/-- Number of projects submitted on day `d` with the given domain. -/
def domainDayCount (projects : List JGIGenomeProject) (d dom : String) : Nat :=
  (projects.filter
    (fun p => dayOfDate p.submissionDate == d && p.metadata.domain == dom)).length

theorem trendGet_trendAdd_self (acc : List (String × Nat × Nat)) (k : String)
    (dl : Nat × Nat) :
    (trendGet (trendAdd acc k dl) k).getD (0, 0) =
      (((trendGet acc k).getD (0, 0)).1 + dl.1,
       ((trendGet acc k).getD (0, 0)).2 + dl.2) := by
  induction acc with
  | nil => simp [trendAdd, trendGet]
  | cons hd t ih =>
    obtain ⟨d, c⟩ := hd
    by_cases hdk : d = k
    · simp [trendAdd, hdk, trendGet]
    · simpa [trendAdd, hdk, trendGet] using ih

theorem trendGet_trendAdd_ne (acc : List (String × Nat × Nat)) {k k' : String}
    (dl : Nat × Nat) (h : k' ≠ k) :
    trendGet (trendAdd acc k dl) k' = trendGet acc k' := by
  have h' : k ≠ k' := fun hc => h hc.symm
  induction acc with
  | nil => simp [trendAdd, trendGet, h']
  | cons hd t ih =>
    obtain ⟨d, c⟩ := hd
    by_cases hdk : d = k
    · have hdk2 : d ≠ k' := fun hc => h (hc.symm.trans hdk)
      simp [trendAdd, hdk, trendGet, hdk2, h']
    · by_cases hdk' : d = k'
      · simp [trendAdd, hdk, trendGet, hdk', h, h']
      · simp [trendAdd, hdk, trendGet, hdk', ih]

theorem dailyAccum_counts (projects : List JGIGenomeProject) :
    ∀ (acc : List (String × Nat × Nat)) (d : String),
      ((trendGet (projects.foldl
          (fun acc p => trendAdd acc (dayOfDate p.submissionDate) (domainDelta p))
          acc) d).getD (0, 0)) =
        (((trendGet acc d).getD (0, 0)).1 + domainDayCount projects d "Bacteria",
         ((trendGet acc d).getD (0, 0)).2 + domainDayCount projects d "Archaea") := by
  induction projects with
  | nil => intro acc d; simp [domainDayCount]
  | cons p ps ih =>
    intro acc d
    rw [List.foldl_cons]
    rw [ih (trendAdd acc (dayOfDate p.submissionDate) (domainDelta p)) d]
    by_cases hpd : dayOfDate p.submissionDate = d
    · rw [← hpd, trendGet_trendAdd_self]
      unfold domainDayCount
      by_cases hb : p.metadata.domain = "Bacteria"
      · rw [List.filter_cons_of_pos (by simp [hpd, hb]),
          List.filter_cons_of_neg (by simp [hb])]
        simp [domainDelta, hb, domainDayCount]
        omega
      · by_cases ha : p.metadata.domain = "Archaea"
        · rw [List.filter_cons_of_neg (by simp [ha, hb]),
            List.filter_cons_of_pos (by simp [hpd, ha])]
          simp [domainDelta, hb, ha, domainDayCount]
          omega
        · rw [List.filter_cons_of_neg (by simp [hb]),
            List.filter_cons_of_neg (by simp [ha])]
          simp [domainDelta, hb, ha, domainDayCount]
    · rw [trendGet_trendAdd_ne acc (domainDelta p) (fun hc => hpd hc.symm)]
      unfold domainDayCount
      rw [List.filter_cons_of_neg (by simp [hpd]),
        List.filter_cons_of_neg (by simp [hpd])]

theorem foldl_append_eq_flatMap {α β : Type} (f : α → List β) :
    ∀ (l : List α) (acc : List β),
      l.foldl (fun d i => d ++ f i) acc = acc ++ l.flatMap f := by
  intro l
  induction l with
  | nil => intro acc; simp
  | cons x l ih => intro acc; simp [ih]

/-- Claim C6 (confirmed): for every input project list (including `[]`), the
daily trend series is exactly the 30-day window unfolded — for each
`i = 0..29`, in order, one Bacteria row and one Archaea row for day
`today - 30 + i`, whose counts are the number of projects submitted that
day in that domain (`0` when there are none) — hence exactly 60 rows with
no day/domain pair omitted. -/
theorem C6_daily_trend_rows (isoDay : Int → String) (today : Int)
    (projects : List JGIGenomeProject) :
    computeDailyTrends isoDay today projects =
        (List.range 30).flatMap (fun i =>
          [⟨isoDay (today - 30 + i),
            domainDayCount projects (isoDay (today - 30 + i)) "Bacteria",
            "Bacteria"⟩,
           ⟨isoDay (today - 30 + i),
            domainDayCount projects (isoDay (today - 30 + i)) "Archaea",
            "Archaea"⟩]) ∧
      (computeDailyTrends isoDay today projects).length = 60 := by
  have hmain : computeDailyTrends isoDay today projects =
      (List.range 30).flatMap (fun i =>
        [⟨isoDay (today - 30 + i),
          domainDayCount projects (isoDay (today - 30 + i)) "Bacteria",
          "Bacteria"⟩,
         ⟨isoDay (today - 30 + i),
          domainDayCount projects (isoDay (today - 30 + i)) "Archaea",
          "Archaea"⟩]) := by
    have hfun : ∀ i : Nat,
        (trendGet (dailyAccum projects) (isoDay (today - 30 + i))).getD (0, 0) =
          (domainDayCount projects (isoDay (today - 30 + i)) "Bacteria",
           domainDayCount projects (isoDay (today - 30 + i)) "Archaea") := by
      intro i
      have h := dailyAccum_counts projects [] (isoDay (today - 30 + i))
      simpa [trendGet, dailyAccum] using h
    unfold computeDailyTrends
    rw [foldl_append_eq_flatMap, List.nil_append]
    congr 1
    funext i
    rw [hfun i]
  refine ⟨hmain, ?_⟩
  rw [hmain]
  rfl

/-! ## Recent activity (`computeRecentActivity`, analytics-processor.ts:226-254) -/

/-- One activity event; `metadata` is the free-form JS object, modelled as
key/value pairs. -/
structure ActivityEvent where
  id : String
  type : String
  status : String
  message : String
  timestamp : String
  metadata : List (String × String) := []
  deriving DecidableEq, Repr

/-- The extraction event pushed when the `last_extraction` cache value is
truthy; its `id` is `"extraction_" + Date.now()` and its timestamp is the
cached extraction time. -/
def extractionEvent (lastExtraction : String) (nowMs : Nat) : ActivityEvent :=
  { id := "extraction_" ++ toString nowMs
    type := "extraction"
    status := "success"
    message := "Daily JGI data extraction completed"
    timestamp := lastExtraction
    metadata := [("source", "jgi_portal")] }

/-- The processing event always pushed second; its timestamp is the
aggregation time `new Date().toISOString()`. -/
def processingEvent (nowIso : String) (nowMs : Nat) : ActivityEvent :=
  { id := "processing_" ++ toString nowMs
    type := "processing"
    status := "success"
    message := "Analytics pipeline processing completed"
    timestamp := nowIso
    metadata := [("processingTime", "1.2s")] }

/-- `computeRecentActivity`: `lastExtraction` is the cached KV value (`none`
when absent; the JS truthiness test also skips an empty string), `nowIso` and
`nowMs` are `new Date().toISOString()` and `Date.now()`; the result is
`activities.slice(0, 10)`. -/
def computeRecentActivity (lastExtraction : Option String) (nowIso : String)
    (nowMs : Nat) : List ActivityEvent :=
  ((match lastExtraction with
    | some t => if t = "" then [] else [extractionEvent t nowMs]
    | none => []) ++ [processingEvent nowIso nowMs]).take 10

theorem append_ne_empty_of_length_pos {pre : String} (s : String)
    (h : pre.length ≠ 0) : pre ++ s ≠ "" := by
  intro hc
  apply h
  have h2 := congrArg String.length hc
  rw [String.length_append] at h2
  rw [show ("" : String).length = 0 from rfl] at h2
  omega

theorem extractionEvent_fields (t : String) (ms : Nat) :
    (extractionEvent t ms).type ≠ "" ∧ (extractionEvent t ms).status ≠ "" ∧
      (extractionEvent t ms).message ≠ "" :=
  ⟨by show ("extraction" : String) ≠ ""; decide,
   by show ("success" : String) ≠ ""; decide,
   by show ("Daily JGI data extraction completed" : String) ≠ ""; decide⟩

theorem processingEvent_fields (iso : String) (ms : Nat) :
    (processingEvent iso ms).type ≠ "" ∧ (processingEvent iso ms).status ≠ "" ∧
      (processingEvent iso ms).message ≠ "" :=
  ⟨by show ("processing" : String) ≠ ""; decide,
   by show ("success" : String) ≠ ""; decide,
   by show ("Analytics pipeline processing completed" : String) ≠ ""; decide⟩

/-- Claim C9, refuted part: the produced list is not reverse-chronological —
with a cached extraction time earlier than the aggregation time, the
extraction event (older) precedes the processing event (newer), so
timestamps increase along the list. -/
theorem C9_counterexample :
    ¬ (computeRecentActivity (some "2026-01-01T00:00:00Z")
        "2026-01-02T00:00:00Z" 5).Pairwise
        (fun a b => ¬ a.timestamp < b.timestamp) := by
  intro h
  have := (List.pairwise_cons.mp h).1 (processingEvent "2026-01-02T00:00:00Z" 5)
    (by simp [computeRecentActivity])
  apply this
  show ("2026-01-01T00:00:00Z" : String) < "2026-01-02T00:00:00Z"
  rw [String.lt_iff_toList_lt]
  decide

/-- Claim C9 (corrected): the recent-activity list is bounded by 10 (indeed
by 2) and every event carries a non-empty id, type, status and message plus
a timestamp; but it is ordered extraction-first — the extraction event
(stamped with the cached, older extraction time) precedes the processing
event (stamped with the aggregation time) — not newest-timestamp-first as
claimed. -/
theorem C9_recent_activity (lastExtraction : Option String) (nowIso : String)
    (nowMs : Nat) :
    (computeRecentActivity lastExtraction nowIso nowMs).length ≤ 10 ∧
      (computeRecentActivity lastExtraction nowIso nowMs).length ≤ 2 ∧
      (∀ a ∈ computeRecentActivity lastExtraction nowIso nowMs,
        a.id ≠ "" ∧ a.type ≠ "" ∧ a.status ≠ "" ∧ a.message ≠ "") ∧
      (computeRecentActivity lastExtraction nowIso nowMs).getLast? =
        some (processingEvent nowIso nowMs) ∧
      (∀ t, lastExtraction = some t → t ≠ "" →
        computeRecentActivity lastExtraction nowIso nowMs =
          [extractionEvent t nowMs, processingEvent nowIso nowMs]) := by
  have hid1 : ∀ t, (extractionEvent t nowMs).id ≠ "" :=
    fun t => append_ne_empty_of_length_pos (toString nowMs) (by decide)
  have hid2 : (processingEvent nowIso nowMs).id ≠ "" :=
    append_ne_empty_of_length_pos (toString nowMs) (by decide)
  rcases lastExtraction with _ | t
  · refine ⟨by simp [computeRecentActivity], by simp [computeRecentActivity],
      ?_, by simp [computeRecentActivity], by intro t h; cases h⟩
    intro a ha
    simp [computeRecentActivity] at ha
    subst ha
    exact ⟨hid2, (processingEvent_fields nowIso nowMs).1,
      (processingEvent_fields nowIso nowMs).2.1,
      (processingEvent_fields nowIso nowMs).2.2⟩
  · by_cases ht : t = ""
    · refine ⟨by simp [computeRecentActivity, ht],
        by simp [computeRecentActivity, ht], ?_,
        by simp [computeRecentActivity, ht], ?_⟩
      · intro a ha
        simp [computeRecentActivity, ht] at ha
        subst ha
        exact ⟨hid2, (processingEvent_fields nowIso nowMs).1,
          (processingEvent_fields nowIso nowMs).2.1,
          (processingEvent_fields nowIso nowMs).2.2⟩
      · intro t' h' hne
        rw [Option.some.inj h'] at ht
        exact absurd ht hne
    · refine ⟨by simp [computeRecentActivity, ht],
        by simp [computeRecentActivity, ht], ?_,
        by simp [computeRecentActivity, ht], ?_⟩
      · intro a ha
        simp [computeRecentActivity, ht] at ha
        rcases ha with ha | ha <;> subst ha
        · exact ⟨hid1 t, (extractionEvent_fields t nowMs).1,
            (extractionEvent_fields t nowMs).2.1,
            (extractionEvent_fields t nowMs).2.2⟩
        · exact ⟨hid2, (processingEvent_fields nowIso nowMs).1,
            (processingEvent_fields nowIso nowMs).2.1,
            (processingEvent_fields nowIso nowMs).2.2⟩
      · intro t' h' _
        rw [← Option.some.inj h']
        simp [computeRecentActivity, ht]

/-- Claim C9, witness: the amended theorem applied at a concrete cached
extraction time and aggregation time, with the bound and order evaluated. -/
theorem C9_witness :
    (computeRecentActivity (some "2026-01-01T00:00:00Z")
        "2026-01-02T00:00:00Z" 5).length ≤ 10 ∧
      computeRecentActivity (some "2026-01-01T00:00:00Z")
          "2026-01-02T00:00:00Z" 5 =
        [extractionEvent "2026-01-01T00:00:00Z" 5,
         processingEvent "2026-01-02T00:00:00Z" 5] :=
  ⟨(C9_recent_activity (some "2026-01-01T00:00:00Z")
      "2026-01-02T00:00:00Z" 5).1,
   (C9_recent_activity (some "2026-01-01T00:00:00Z")
      "2026-01-02T00:00:00Z" 5).2.2.2.2 "2026-01-01T00:00:00Z" rfl
      (by decide)⟩

/-! ## Record normalization (`processOrganismResult`, jgi-extractor.ts:237-283) -/

/-- A raw organism object from one JGI search page.  String-valued upstream
fields are `Option String` with `none` for `undefined`; numeric upstream ids
are modelled after their `toString()` (a number's decimal string is never
empty, so only a missing id or an empty-string id is falsy). -/
structure RawOrganism where
  name : Option String := none
  id : Option String := none
  label : Option String := none
  proposal_acceptance_date : Option String := none
  work_completion_date : Option String := none
  fileSize : Option Nat := none
  file_total : Option Nat := none
  phylum : Option String := none
  class_name : Option String := none
  order_name : Option String := none
  family : Option String := none
  genus : Option String := none
  species : Option String := none
  strain : Option String := none
  download_url : Option String := none
  deriving DecidableEq, Repr

/-- JS `x || d` on an optional string: `undefined`, `null` and `""` all fall
through to the default. -/
def jsOr (x : Option String) (d : String) : String :=
  match x with
  | some s => if s = "" then d else s
  | none => d

/-- JS falsiness of an optional string (`!x`). -/
def falsy (x : Option String) : Bool :=
  match x with
  | some s => s == ""
  | none => true

/-- `x || undefined` on an optional string. -/
def jsOrUndef (x : Option String) : Option String :=
  match x with
  | some s => if s = "" then none else some s
  | none => none

/-- `parseOrganismMetadata` (jgi-extractor.ts:309-321): split the organism
name on spaces into genus/species and capitalize the domain. -/
def parseOrganismMetadata (organismName domain : String) : OrganismMetadata :=
  { domain := domain.capitalize
    genus := jsOrUndef ((organismName.splitOn " ").get? 0)
    species := jsOrUndef ((organismName.splitOn " ").get? 1) }

/-- `processOrganismResult` (jgi-extractor.ts:237-283).  `now` models
`new Date().toISOString()` and `rand` models `Math.random().toString()` (a
non-empty decimal string).  The metadata spread overwrites the parsed
genus/species with the upstream taxonomy fields, even when those are
`undefined`. -/
def processOrganismResult (now rand : String) (o : RawOrganism)
    (domain : String) : Option JGIGenomeProject :=
  if falsy o.name && falsy o.id then none
  else
    some
      { id := jsOr o.id rand
        name := jsOr o.name "Unknown"
        organism := jsOr o.name "Unknown"
        sequenceType := jsOr o.label "Genome Assembly"
        status := "available"
        submissionDate :=
          jsOr o.proposal_acceptance_date (jsOr o.work_completion_date now)
        releaseDate := o.work_completion_date
        sequenceLength := o.fileSize
        geneCount := o.file_total
        metadata :=
          { parseOrganismMetadata (jsOr o.name "Unknown") domain with
            phylum := o.phylum, cls := o.class_name, order := o.order_name,
            family := o.family, genus := o.genus, species := o.species,
            strain := o.strain }
        portalUrl := "https://genome.jgi.doe.gov/portal/" ++ jsOr o.id rand
        downloadUrl := o.download_url
        extractedAt := now }

/-- Claim C10 (confirmed): (i) a raw record is rejected (`null`) exactly when
both its name and its id are missing/falsy; (ii) every produced project has
a non-empty id (given that `Math.random().toString()` is non-empty);
(iii) when the record has a name but a falsy id, the produced id is exactly
the random draw, not an upstream value; (iv) hence the same organism
observed in two runs with different random draws receives two different
ids. -/
theorem C10_id_fabrication :
    (∀ (now rand : String) (o : RawOrganism) (domain : String),
        processOrganismResult now rand o domain = none ↔
          (falsy o.name && falsy o.id) = true) ∧
      (∀ (now rand : String) (o : RawOrganism) (domain : String)
          (p : JGIGenomeProject), rand ≠ "" →
          processOrganismResult now rand o domain = some p → p.id ≠ "") ∧
      (∀ (now rand : String) (o : RawOrganism) (domain : String)
          (p : JGIGenomeProject), falsy o.id = true →
          processOrganismResult now rand o domain = some p → p.id = rand) ∧
      (∀ (now1 now2 r1 r2 : String) (o : RawOrganism) (domain : String)
          (p1 p2 : JGIGenomeProject), falsy o.id = true → r1 ≠ r2 →
          processOrganismResult now1 r1 o domain = some p1 →
          processOrganismResult now2 r2 o domain = some p2 →
          p1.id ≠ p2.id) := by
  have hid_falsy : ∀ (rand : String) (o : RawOrganism), falsy o.id = true →
      jsOr o.id rand = rand := by
    intro rand o h
    rcases ho : o.id with _ | s
    · rfl
    · rw [ho] at h
      have : s = "" := by simpa [falsy] using h
      simp [jsOr, this]
  have hsome_id : ∀ (now rand : String) (o : RawOrganism) (domain : String)
      (p : JGIGenomeProject), processOrganismResult now rand o domain = some p →
      p.id = jsOr o.id rand := by
    intro now rand o domain p h
    unfold processOrganismResult at h
    by_cases hg : (falsy o.name && falsy o.id) = true
    · rw [if_pos hg] at h; cases h
    · rw [if_neg hg] at h
      rw [← Option.some.inj h]
  refine ⟨?_, ?_, ?_, ?_⟩
  · intro now rand o domain
    unfold processOrganismResult
    by_cases hg : (falsy o.name && falsy o.id) = true
    · simp [hg]
    · simp [hg]
  · intro now rand o domain p hrand h
    rw [hsome_id now rand o domain p h]
    rcases ho : o.id with _ | s
    · simpa [jsOr] using hrand
    · by_cases hs : s = ""
      · simpa [jsOr, hs] using hrand
      · simp [jsOr, hs]
  · intro now rand o domain p hfalsy h
    rw [hsome_id now rand o domain p h]
    exact hid_falsy rand o hfalsy
  · intro now1 now2 r1 r2 o domain p1 p2 hfalsy hne h1 h2
    rw [hsome_id now1 r1 o domain p1 h1, hsome_id now2 r2 o domain p2 h2,
      hid_falsy r1 o hfalsy, hid_falsy r2 o hfalsy]
    exact hne

/-- A concrete upstream record with a name but no id. -/
def orgNoId : RawOrganism :=
  { name := some "Methanococcus maripaludis" }

/-- Claim C10, witness: the organism with a name and no id is accepted in two
runs with different random draws and receives the two different fabricated
ids. -/
theorem C10_witness :
    falsy orgNoId.id = true ∧ ("0.123" : String) ≠ "0.456" ∧
      (∀ p1 p2 : JGIGenomeProject,
        processOrganismResult "2026-01-01" "0.123" orgNoId "archaea" = some p1 →
        processOrganismResult "2026-01-02" "0.456" orgNoId "archaea" = some p2 →
        p1.id ≠ p2.id) ∧
      (processOrganismResult "2026-01-01" "0.123" orgNoId "archaea").isSome = true :=
  ⟨by decide, by decide,
   fun p1 p2 h1 h2 =>
     C10_id_fabrication.2.2.2 "2026-01-01" "2026-01-02" "0.123" "0.456"
       orgNoId "archaea" p1 p2 (by decide) (by decide) h1 h2,
   by decide⟩

/-! ## Paginated extraction (`extractGenomesForDomain`, jgi-extractor.ts:151-235)

The upstream fetch plus JSON decode of one page is a function
`fetch : Nat → Option PageData`; `none` models a thrown error (non-OK
status, network failure or undecodable body), which the surrounding `try`
turns into an early return of the projects accumulated so far.  The loop
starts at page 1 and runs while `currentPage ≤ maxPages` and the previous
page was non-empty with `currentPage * 100 < total`; the model's fuel is
the number of loop iterations still allowed by `maxPages`.  Besides the
projects, the model returns the list of requested page numbers (the
network calls made, in order). -/

/-- Decoded body of one JGI search page (`data.organisms`, `data.total`). -/
structure PageData where
  organisms : Option (List RawOrganism) := none
  total : Nat := 0

/-- Processing of one page's organisms: per-record normalization, `null`s
skipped (`rand` supplies the `Math.random()` draw used for an id-less
record). -/
def pageProjects (now : String) (rand : RawOrganism → String) (domain : String)
    (orgs : List RawOrganism) : List JGIGenomeProject :=
  orgs.filterMap (fun o => processOrganismResult now (rand o) o domain)

/-- The pagination loop of `extractGenomesForDomain`. -/
def extractPages (fetch : Nat → Option PageData) (now : String)
    (rand : RawOrganism → String) (domain : String) :
    Nat → Nat → List JGIGenomeProject → List Nat →
      List JGIGenomeProject × List Nat
  | 0, _, acc, pages => (acc, pages)
  | fuel + 1, page, acc, pages =>
    match fetch page with
    | none => (acc, pages ++ [page])
    | some data =>
      match data.organisms with
      | none => (acc, pages ++ [page])
      | some orgs =>
        if 0 < orgs.length ∧ page * 100 < data.total then
          extractPages fetch now rand domain fuel (page + 1)
            (acc ++ pageProjects now rand domain orgs) (pages ++ [page])
        else (acc ++ pageProjects now rand domain orgs, pages ++ [page])

/-- `extractGenomesForDomain` (jgi-extractor.ts:151-235): run the loop from
page 1 with empty accumulators; the error handler returns the accumulated
projects instead of raising. -/
def extractGenomesForDomain (fetch : Nat → Option PageData) (now : String)
    (rand : RawOrganism → String) (domain : String) (maxPages : Nat) :
    List JGIGenomeProject × List Nat :=
  extractPages fetch now rand domain maxPages 1 [] []

/-- The records a single requested page contributes. -/
def pageRecords (fetch : Nat → Option PageData) (now : String)
    (rand : RawOrganism → String) (domain : String) (q : Nat) :
    List JGIGenomeProject :=
  match fetch q with
  | some data =>
    match data.organisms with
    | some orgs => pageProjects now rand domain orgs
    | none => []
  | none => []

theorem extractPages_frame (fetch : Nat → Option PageData) (now : String)
    (rand : RawOrganism → String) (domain : String) :
    ∀ (fuel page : Nat) (acc : List JGIGenomeProject) (pages : List Nat),
      extractPages fetch now rand domain fuel page acc pages =
        (acc ++ (extractPages fetch now rand domain fuel page [] []).1,
         pages ++ (extractPages fetch now rand domain fuel page [] []).2) := by
  intro fuel
  induction fuel with
  | zero => intro page acc pages; simp [extractPages]
  | succ fuel ih =>
    intro page acc pages
    rcases hf : fetch page with _ | data
    · simp [extractPages, hf]
    · rcases ho : data.organisms with _ | orgs
      · simp [extractPages, hf, ho]
      · by_cases hm : 0 < orgs.length ∧ page * 100 < data.total
        · simp only [extractPages, hf, ho, if_pos hm]
          rw [ih (page + 1) (acc ++ pageProjects now rand domain orgs) (pages ++ [page]),
            ih (page + 1) ([] ++ pageProjects now rand domain orgs) ([] ++ [page])]
          simp
        · simp [extractPages, hf, ho, if_neg hm]

theorem extractPages_pages_ge (fetch : Nat → Option PageData) (now : String)
    (rand : RawOrganism → String) (domain : String) :
    ∀ (fuel page : Nat) (acc : List JGIGenomeProject) (pages : List Nat),
      (∀ q ∈ pages, 1 ≤ q) → 1 ≤ page →
      ∀ q ∈ (extractPages fetch now rand domain fuel page acc pages).2, 1 ≤ q := by
  intro fuel
  induction fuel with
  | zero => intro page acc pages hp _; exact hp
  | succ fuel ih =>
    intro page acc pages hp hpage q hq
    have hpp : ∀ r ∈ pages ++ [page], 1 ≤ r := by
      intro r hr
      rcases List.mem_append.mp hr with h | h
      · exact hp r h
      · rw [List.mem_singleton.mp h]; exact hpage
    rcases hf : fetch page with _ | data
    · rw [show extractPages fetch now rand domain (fuel + 1) page acc pages =
          (acc, pages ++ [page]) by simp [extractPages, hf]] at hq
      exact hpp q hq
    · rcases ho : data.organisms with _ | orgs
      · rw [show extractPages fetch now rand domain (fuel + 1) page acc pages =
            (acc, pages ++ [page]) by simp [extractPages, hf, ho]] at hq
        exact hpp q hq
      · by_cases hm : 0 < orgs.length ∧ page * 100 < data.total
        · rw [show extractPages fetch now rand domain (fuel + 1) page acc pages =
              extractPages fetch now rand domain fuel (page + 1)
                (acc ++ pageProjects now rand domain orgs) (pages ++ [page]) by
              simp [extractPages, hf, ho, if_pos hm]] at hq
          exact ih (page + 1) _ (pages ++ [page]) hpp (Nat.le_succ_of_le hpage) q hq
        · rw [show extractPages fetch now rand domain (fuel + 1) page acc pages =
              (acc ++ pageProjects now rand domain orgs, pages ++ [page]) by
              simp [extractPages, hf, ho, if_neg hm]] at hq
          exact hpp q hq

/-- Claim C4, refuted part: there is no page-number validation and no
`ConfigurationError` anywhere in the extractor — the page-fetch entry point
takes only a page cap, and invoked with cap `0` it returns normally with no
records and, above all, no network call, instead of failing fast. -/
theorem C4_counterexample :
    extractGenomesForDomain (fun _ => none) "2026-01-01"
      (fun _ => "0.1") "archaea" 0 = ([], []) := rfl

/-- Claim C4 (corrected): the code defines no `ConfigurationError` and
validates no page number — but page `0` can never be emitted to the
upstream API: pagination always starts at page 1 and increments, so every
page number the loop requests is at least 1 (and in particular never 0). -/
theorem C4_page_zero_never_requested (fetch : Nat → Option PageData)
    (now : String) (rand : RawOrganism → String) (domain : String)
    (maxPages : Nat) :
    (∀ q ∈ (extractGenomesForDomain fetch now rand domain maxPages).2, 1 ≤ q) ∧
      0 ∉ (extractGenomesForDomain fetch now rand domain maxPages).2 := by
  have h := extractPages_pages_ge fetch now rand domain maxPages 1 [] []
    (by intro q hq; cases hq) (Nat.le_refl 1)
  refine ⟨h, ?_⟩
  intro h0
  have := h 0 h0
  omega

/-- A concrete JGI fetch oracle: page 1 yields two organisms out of an
advertised total of 200, page 2 raises. -/
def fetchArchaeaC : Nat → Option PageData :=
  fun p =>
    if p = 1 then
      some ⟨some [{ name := some "Methanococcus maripaludis", id := some "A1" },
                  { name := some "Sulfolobus solfataricus", id := some "A2" }], 200⟩
    else none

/-- Claim C4, witness: on a concrete oracle and cap, every requested page of
the extraction is at least 1. -/
theorem C4_witness :
    (∀ q ∈ (extractGenomesForDomain fetchArchaeaC "2026-01-01"
        (fun _ => "0.1") "archaea" 3).2, 1 ≤ q) ∧
      (extractGenomesForDomain fetchArchaeaC "2026-01-01"
        (fun _ => "0.1") "archaea" 3).2 = [1, 2] :=
  ⟨(C4_page_zero_never_requested fetchArchaeaC "2026-01-01"
      (fun _ => "0.1") "archaea" 3).1,
   by decide⟩

/-! ## Claim C7 -/

theorem extractPages_fail_is_last (fetch : Nat → Option PageData)
    (now : String) (rand : RawOrganism → String) (domain : String) :
    ∀ (fuel page : Nat) (acc : List JGIGenomeProject) (pages : List Nat),
      (∀ q ∈ pages, (fetch q).isSome) →
      ∀ p ∈ (extractPages fetch now rand domain fuel page acc pages).2,
        fetch p = none →
        (extractPages fetch now rand domain fuel page acc pages).2.getLast? =
          some p := by
  intro fuel
  induction fuel with
  | zero =>
    intro page acc pages hok p hp hfail
    rw [show (extractPages fetch now rand domain 0 page acc pages).2 = pages
      from rfl] at hp ⊢
    have := hok p hp
    rw [hfail] at this
    cases this
  | succ fuel ih =>
    intro page acc pages hok p hp hfail
    rcases hf : fetch page with _ | data
    · rw [show extractPages fetch now rand domain (fuel + 1) page acc pages =
          (acc, pages ++ [page]) by simp [extractPages, hf]] at hp ⊢
      rcases List.mem_append.mp hp with h | h
      · have := hok p h
        rw [hfail] at this
        cases this
      · rw [List.mem_singleton.mp h, List.getLast?_concat]
    · have hokp : ∀ q ∈ pages ++ [page], (fetch q).isSome := by
        intro q hq
        rcases List.mem_append.mp hq with h | h
        · exact hok q h
        · rw [List.mem_singleton.mp h, hf]; rfl
      rcases ho : data.organisms with _ | orgs
      · rw [show extractPages fetch now rand domain (fuel + 1) page acc pages =
            (acc, pages ++ [page]) by simp [extractPages, hf, ho]] at hp ⊢
        have := hokp p hp
        rw [hfail] at this
        cases this
      · by_cases hm : 0 < orgs.length ∧ page * 100 < data.total
        · rw [show extractPages fetch now rand domain (fuel + 1) page acc pages =
              extractPages fetch now rand domain fuel (page + 1)
                (acc ++ pageProjects now rand domain orgs) (pages ++ [page]) by
              simp [extractPages, hf, ho, if_pos hm]] at hp ⊢
          exact ih (page + 1) _ (pages ++ [page]) hokp p hp hfail
        · rw [show extractPages fetch now rand domain (fuel + 1) page acc pages =
              (acc ++ pageProjects now rand domain orgs, pages ++ [page]) by
              simp [extractPages, hf, ho, if_neg hm]] at hp ⊢
          have := hokp p hp
          rw [hfail] at this
          cases this

theorem extractPages_projects_eq_pages (fetch : Nat → Option PageData)
    (now : String) (rand : RawOrganism → String) (domain : String) :
    ∀ (fuel page : Nat),
      (extractPages fetch now rand domain fuel page [] []).1 =
        (extractPages fetch now rand domain fuel page [] []).2.flatMap
          (pageRecords fetch now rand domain) := by
  intro fuel
  induction fuel with
  | zero => intro page; rfl
  | succ fuel ih =>
    intro page
    rcases hf : fetch page with _ | data
    · simp [extractPages, hf, pageRecords]
    · rcases ho : data.organisms with _ | orgs
      · simp [extractPages, hf, ho, pageRecords]
      · by_cases hm : 0 < orgs.length ∧ page * 100 < data.total
        · simp only [extractPages, hf, ho, if_pos hm]
          rw [extractPages_frame fetch now rand domain fuel (page + 1)
            ([] ++ pageProjects now rand domain orgs) ([] ++ [page])]
          simp only [List.nil_append]
          rw [ih (page + 1)]
          simp [pageRecords, hf, ho]
        · simp [extractPages, hf, ho, if_neg hm, pageRecords]

/-- The result of `extractLatestData` (jgi-extractor.ts:42-94): the returned
batch of newly extracted projects, the merge statistics, and the merged
master dataset that was persisted. -/
structure ExtractionResult where
  projects : List JGIGenomeProject
  stats : MergeStats
  merged : List JGIGenomeProject
  deriving DecidableEq, Repr

/-- `extractLatestData` (jgi-extractor.ts:42-94): extract both domains (the
two fetch oracles and random streams are per-domain), concatenate
archaea ++ bacteria, merge into the master dataset, persist the merge, and
return the newly extracted batch with the merge statistics. -/
def extractLatestData (fetchA fetchB : Nat → Option PageData) (now : String)
    (randA randB : RawOrganism → String) (maxPages : Nat)
    (masterDataset : List JGIGenomeProject) : ExtractionResult :=
  let archaeaData := (extractGenomesForDomain fetchA now randA "archaea" maxPages).1
  let bacteriaData := (extractGenomesForDomain fetchB now randB "bacteria" maxPages).1
  let newProjects := archaeaData ++ bacteriaData
  let res := mergeAndDeduplicate masterDataset newProjects
  ⟨newProjects, res.stats, res.merged⟩

/-- Claim C7 (confirmed): (i) a failing page fetch ends its domain's loop —
the failing page is the last request made for that domain, and (ii) the
returned records are exactly those of the successfully fetched pages, in
order (the failing page contributes nothing, pages before it everything);
(iii) the extraction never escalates the failure: the pipeline's batch is
always archaea ++ bacteria of the two independent domain extractions and
reconciliation runs on it against the master dataset. -/
theorem C7_page_failure_tolerated (fetchA fetchB : Nat → Option PageData)
    (now : String) (randA randB : RawOrganism → String) (maxPages : Nat)
    (masterDataset : List JGIGenomeProject) :
    (∀ p ∈ (extractGenomesForDomain fetchA now randA "archaea" maxPages).2,
        fetchA p = none →
        (extractGenomesForDomain fetchA now randA "archaea" maxPages).2.getLast? =
          some p) ∧
      ((extractGenomesForDomain fetchA now randA "archaea" maxPages).1 =
        (extractGenomesForDomain fetchA now randA "archaea" maxPages).2.flatMap
          (pageRecords fetchA now randA "archaea")) ∧
      extractLatestData fetchA fetchB now randA randB maxPages masterDataset =
        ⟨(extractGenomesForDomain fetchA now randA "archaea" maxPages).1 ++
            (extractGenomesForDomain fetchB now randB "bacteria" maxPages).1,
          (mergeAndDeduplicate masterDataset
            ((extractGenomesForDomain fetchA now randA "archaea" maxPages).1 ++
              (extractGenomesForDomain fetchB now randB "bacteria" maxPages).1)).stats,
          (mergeAndDeduplicate masterDataset
            ((extractGenomesForDomain fetchA now randA "archaea" maxPages).1 ++
              (extractGenomesForDomain fetchB now randB "bacteria" maxPages).1)).merged⟩ := by
  refine ⟨?_, ?_, rfl⟩
  · intro p hp hfail
    exact extractPages_fail_is_last fetchA now randA "archaea" maxPages 1 [] []
      (by intro q hq; cases hq) p hp hfail
  · exact extractPages_projects_eq_pages fetchA now randA "archaea" maxPages 1

/-- A concrete bacteria oracle: one page with one organism, total 1. -/
def fetchBacteriaC : Nat → Option PageData :=
  fun p =>
    if p = 1 then
      some ⟨some [{ name := some "Escherichia coli", id := some "B1" }], 1⟩
    else none

/-- Claim C7, witness: spec Scenario C in miniature — archaea page 2 fails
after page 1 succeeded, bacteria completes; the archaea loop's last request
is the failing page 2, its records are those of page 1, and reconciliation
runs on both domains' surviving records (3 records, all new). -/
theorem C7_witness :
    (2 ∈ (extractGenomesForDomain fetchArchaeaC "2026-01-01"
        (fun _ => "0.1") "archaea" 3).2) ∧
      (extractGenomesForDomain fetchArchaeaC "2026-01-01"
          (fun _ => "0.1") "archaea" 3).2.getLast? = some 2 ∧
      (extractLatestData fetchArchaeaC fetchBacteriaC "2026-01-01"
          (fun _ => "0.1") (fun _ => "0.2") 3 []).stats.newCount = 3 ∧
      (extractLatestData fetchArchaeaC fetchBacteriaC "2026-01-01"
          (fun _ => "0.1") (fun _ => "0.2") 3 []).projects.length = 3 :=
  ⟨by decide,
   (C7_page_failure_tolerated fetchArchaeaC fetchBacteriaC "2026-01-01"
      (fun _ => "0.1") (fun _ => "0.2") 3 []).1 2 (by decide) rfl,
   by decide, by decide⟩

/-! ## Claim C8: overview computation and the trigger pipeline -/

/-- The analytics overview (`computeOverview`, analytics-processor.ts:36-66).
`isAfterWeekAgo` models `new Date(p.submissionDate) > weekAgo` and
`historicalData` the prior day's archived overview (as in
`calculateGrowthRate`). -/
structure Overview where
  totalProjects : Nat
  archaeaProjects : Nat
  bacteriaProjects : Nat
  lastUpdated : String
  growthRate : ℚ
  newProjectsThisWeek : Nat
  deriving DecidableEq, Repr

/-- `computeOverview` over the project list handed to `processData`. -/
def computeOverview (projects : List JGIGenomeProject)
    (historicalData : Option (Option ℚ)) (isAfterWeekAgo : String → Bool)
    (nowIso : String) : Overview :=
  { totalProjects := projects.length
    archaeaProjects :=
      (projects.filter (fun p => p.metadata.domain == "Archaea")).length
    bacteriaProjects :=
      (projects.filter (fun p => p.metadata.domain == "Bacteria")).length
    lastUpdated := nowIso
    growthRate := calculateGrowthRate (projects.length : ℚ) historicalData
    newProjectsThisWeek :=
      (projects.filter (fun p => isAfterWeekAgo p.submissionDate)).length }

/-- The pipeline of `handleTriggerExtraction`
(analytics-processor.ts:879-891): extract (which merges the batch into the
master dataset and persists it), then compute the analytics overview from
the value `extractLatestData` returned — the newly extracted batch, not the
merged master dataset. -/
def handleTriggerExtraction (fetchA fetchB : Nat → Option PageData)
    (now : String) (randA randB : RawOrganism → String) (maxPages : Nat)
    (masterDataset : List JGIGenomeProject)
    (historicalData : Option (Option ℚ)) (isAfterWeekAgo : String → Bool)
    (nowIso : String) : Overview × MergeResult :=
  let ext := extractLatestData fetchA fetchB now randA randB maxPages masterDataset
  (computeOverview ext.projects historicalData isAfterWeekAgo nowIso,
   ⟨ext.merged, ext.stats⟩)

/-- The master record with id `A` that the batch below does not re-observe. -/
def recA : JGIGenomeProject :=
  { id := "A", name := "a", organism := "a", sequenceType := "Genome Assembly",
    status := "available", submissionDate := "2024-06-01T00:00:00Z",
    metadata := { domain := "Archaea" } }

/-- Claim C8 (code bug), evaluation at the failing input: with master
dataset `[recA]` and an extraction batch containing only the one fresh
record `B1`, the merged master dataset has 2 distinct ids but the published
overview reports `totalProjects = 1` — the size of the newly extracted
batch, not of the merged dataset the claim (and the repo's own
documentation, which says analytics are generated from the master dataset)
prescribe. -/
theorem C8_overview_from_batch :
    (handleTriggerExtraction (fun _ => some ⟨some [], 0⟩) fetchBacteriaC
        "2026-01-01" (fun _ => "0.1") (fun _ => "0.2") 3 [recA]
        none (fun _ => false) "2026-01-01").1.totalProjects = 1 ∧
      (handleTriggerExtraction (fun _ => some ⟨some [], 0⟩) fetchBacteriaC
        "2026-01-01" (fun _ => "0.1") (fun _ => "0.2") 3 [recA]
        none (fun _ => false) "2026-01-01").2.stats.totalCount = 2 ∧
      (1 : Nat) ≠ 2 := by
  refine ⟨rfl, rfl, by decide⟩

end MicrobeMetrics
